import Mathlib

/-!
# zomgclouds: the affine image-transform engine (`rotate/affline.go`)

A shallow embedding of the Go package `affline`:

* `float64` coefficients are modelled by exact rationals `ℚ`; `math.Cos` and
  `math.Sin` at whole quarter turns are taken at their exact values in
  `{-1, 0, 1}`. Rounding is not modelled: a general law of the arithmetic is
  stated on a range in which every `float64` operation involved is exact
  (`ExactInFloat64`), and the theorem shows that the values stay in that range;
* Go's `int` is modelled by the unbounded `Int`;
* a run-time panic (index out of range, `make` with a negative length) is the
  result `none`;
* a slice is a `List`, a `nil` slice is `[]`.
-/

set_option linter.dupNamespace false

namespace Zomgclouds

/-! ## Data model -/

/-- Go's `color.RGBA`: four 8-bit channels. -/
structure RGBA where
  R : Fin 256
  G : Fin 256
  B : Fin 256
  A : Fin 256
deriving DecidableEq, Repr

/-- The package variable `empty = color.RGBA{0, 0, 0, 0}`. -/
def empty : RGBA := ⟨0, 0, 0, 0⟩

/-- Go's `image.Point`. -/
structure Point where
  X : Int
  Y : Int
deriving DecidableEq, Repr

/-- Go's `image.Rectangle`. -/
structure Rectangle where
  Min : Point
  Max : Point
deriving DecidableEq, Repr

/-- `Rectangle.Size`: `Max - Min`. -/
def Rectangle.Size (r : Rectangle) : Point :=
  ⟨r.Max.X - r.Min.X, r.Max.Y - r.Min.Y⟩

/-- `Point.In`: whether the point lies in the rectangle. -/
def Point.In (p : Point) (r : Rectangle) : Bool :=
  decide (r.Min.X ≤ p.X) && decide (p.X < r.Max.X) &&
    decide (r.Min.Y ≤ p.Y) && decide (p.Y < r.Max.Y)

/-- An `*image.RGBA`: its bounds, which are well formed (`Min ≤ Max`, as
`image.NewRGBA` requires), and the stored colour of each pixel. -/
structure Image where
  Rect : Rectangle
  Pix : Int → Int → RGBA
  wf : Rect.Min.X ≤ Rect.Max.X ∧ Rect.Min.Y ≤ Rect.Max.Y

/-- `(*image.RGBA).Bounds`. -/
def Image.Bounds (img : Image) : Rectangle := img.Rect

/-- `(*image.RGBA).At`: the stored colour inside the bounds, the zero colour
outside. -/
def Image.At (img : Image) (x y : Int) : RGBA :=
  if Point.In ⟨x, y⟩ img.Rect then img.Pix x y else ⟨0, 0, 0, 0⟩

/-- `color.RGBA.RGBA()`: each 8-bit channel `v` widened to 16 bits as
`v | v << 8`, that is `v * 257`. -/
def RGBA.RGBA (c : RGBA) : Nat × Nat × Nat × Nat :=
  (c.R.val * 257, c.G.val * 257, c.B.val * 257, c.A.val * 257)

/-- The conversion `uint8(v)` of a `uint32`: the low eight bits. -/
def uint8 (v : Nat) : Fin 256 := ⟨v % 256, Nat.mod_lt _ (by decide)⟩

/-- Go's `f64.Aff3`, the matrix `{m0, m1, m2, m3, m4, m5}` of the map
`x' = m0*x + m1*y + m2`, `y' = m3*x + m4*y + m5`. -/
structure Aff3 where
  m0 : ℚ
  m1 : ℚ
  m2 : ℚ
  m3 : ℚ
  m4 : ℚ
  m5 : ℚ
deriving DecidableEq, Repr

/-- The literal `f64.Aff3{1, 0, 0, 0, 1, 0}`. -/
def Aff3.identity : Aff3 := ⟨1, 0, 0, 0, 1, 0⟩

/-- The point map of a matrix: `(x, y) ↦ (m0*x + m1*y + m2, m3*x + m4*y + m5)`,
as computed in `Transformer.Aff3` (lines 98-99). -/
def Aff3.apply (m : Aff3) (p : ℚ × ℚ) : ℚ × ℚ :=
  ((m.m0 * p.1) + (m.m1 * p.2) + (m.m2 * 1), (m.m3 * p.1) + (m.m4 * p.2) + (m.m5 * 1))

/-- The determinant `m0*m4 - m1*m3` of the linear part of a matrix. -/
def Aff3.det (m : Aff3) : ℚ := m.m0 * m.m4 - m.m1 * m.m3

/-- The standard product of two affine matrices: `(Aff3.mul m om)(p) = m(om(p))`. -/
def Aff3.mul (m om : Aff3) : Aff3 :=
  ⟨m.m0 * om.m0 + m.m1 * om.m3, m.m0 * om.m1 + m.m1 * om.m4,
   m.m0 * om.m2 + m.m1 * om.m5 + m.m2,
   m.m3 * om.m0 + m.m4 * om.m3, m.m3 * om.m1 + m.m4 * om.m4,
   m.m3 * om.m2 + m.m4 * om.m5 + m.m5⟩

/-! ## Operations -/

/-- `math.Cos((math.Pi / 2) * float64(turns))`, at its exact value. -/
def cosQuarter (turns : Int) : ℚ :=
  if turns % 4 = 0 then 1 else if turns % 4 = 2 then -1 else 0

/-- `math.Sin((math.Pi / 2) * float64(turns))`, at its exact value. -/
def sinQuarter (turns : Int) : ℚ :=
  if turns % 4 = 1 then 1 else if turns % 4 = 3 then -1 else 0

/-- The operations of the package: `Translate{X, Y}`, `ReflectHoriz{}`,
`ReflectVert{}` and `Rotate{Turns, ExpandCanvas}`. A chain holds values of the
interface `Affline`, of which only the method `Aff3` is used by the matrix
fold. (`Rotate.MTransform` returns nothing in the source, so a `Rotate` enters
a chain through a wrapper type that supplies that method.) The interface is
open: `Other m` is an implementation from outside the package, handed to
`Transformer.Add`, whose method `Aff3` returns the matrix `m`. -/
inductive Affline where
  | Translate (X Y : Int)
  | ReflectHoriz
  | ReflectVert
  | Rotate (Turns : Int) (ExpandCanvas : Bool)
  | Other (m : Aff3)
deriving DecidableEq, Repr

/-- `Translate.Aff3`. -/
def Translate.Aff3 (X Y : Int) (_img : Image) : Aff3 :=
  ⟨1, 0, (X : ℚ), 0, 1, (Y : ℚ)⟩

/-- `ReflectHoriz.Aff3`. -/
def ReflectHoriz.Aff3 (img : Image) : Aff3 :=
  let width : ℚ := (img.Bounds.Size.X : ℚ)
  ⟨-1, 0, width, 0, 1, 0⟩

/-- `ReflectVert.Aff3`. -/
def ReflectVert.Aff3 (img : Image) : Aff3 :=
  let height : ℚ := (img.Bounds.Size.Y : ℚ)
  ⟨1, 0, 0, 0, -1, height⟩

/-- `Rotate.Aff3` (lines 196-210); `ExpandCanvas` is not read. -/
def Rotate.Aff3 (Turns : Int) (_ExpandCanvas : Bool) (img : Image) : Aff3 :=
  let size := img.Bounds.Size
  let scale : ℚ := 1
  let cos := scale * cosQuarter Turns
  let sin := scale * sinQuarter Turns
  let cx : ℚ := (size.X : ℚ) / 2
  let cy : ℚ := (size.Y : ℚ) / 2
  ⟨cos, sin, ((1 - cos) * cx) - (sin - cy),
   -1 * sin, cos, (sin * cx) + ((1 - cos) * cy)⟩

/-- Dispatch of the interface method `Aff3`. -/
def Affline.Aff3 : Affline → Image → Aff3
  | .Translate X Y, img => Translate.Aff3 X Y img
  | .ReflectHoriz, img => ReflectHoriz.Aff3 img
  | .ReflectVert, img => ReflectVert.Aff3 img
  | .Rotate t e, img => Rotate.Aff3 t e img
  | .Other m, _ => m

/-! ## The transformer and its matrix fold -/

/-- The struct `Transformer`: the chain of operations, in the order appended. -/
structure Transformer where
  ops : List Affline
deriving DecidableEq, Repr

/-- `NewTransformer`. -/
def NewTransformer : Transformer := ⟨[]⟩

/-- `Transformer.Add`: append to the chain. -/
def Transformer.Add (t : Transformer) (a : Affline) : Transformer := ⟨t.ops ++ [a]⟩

/-- One iteration of the loop body of `Transformer.composeOps` (lines 58-61):
the new accumulator from the accumulator `m` and the operation's matrix `om`. -/
def composeStep (m om : Aff3) : Aff3 :=
  ⟨m.m0 * om.m0 + m.m1 * m.m3, m.m0 * om.m1 + m.m1 * om.m4,
   m.m2 + m.m0 * om.m2 + m.m1 * om.m5,
   m.m3 * om.m0 + m.m4 * om.m3, m.m3 * om.m1 + m.m4 * om.m4,
   m.m5 + m.m3 * om.m2 + m.m4 * om.m5⟩

/-- `Transformer.composeOps`: the fold of the chain from the identity matrix. -/
def Transformer.composeOps (t : Transformer) (src : Image) : Aff3 :=
  t.ops.foldl (fun m op => composeStep m (op.Aff3 src)) Aff3.identity

/-! ## Pixel grids -/

/-- A `[][]color.RGBA`. -/
abbrev Grid := List (List RGBA)

/-- The builtin `make([]T, n)`: `n` zero values; it panics for a negative `n`. -/
def makeSlice {α : Type} (n : Int) (zero : α) : Option (List α) :=
  if 0 ≤ n then some (List.replicate n.toNat zero) else none

/-- The assignment `g[y] = row`; it panics when `y` is out of range. -/
def Grid.setRow (g : Grid) (y : Int) (row : List RGBA) : Option Grid :=
  if 0 ≤ y ∧ y < (g.length : Int) then some (g.set y.toNat row) else none

/-- The read `g[y][x]`; it panics when `y` or `x` is out of range. -/
def Grid.pixel (g : Grid) (y x : Int) : Option RGBA :=
  if 0 ≤ y ∧ 0 ≤ x then (g[y.toNat]?).bind (fun row => row[x.toNat]?) else none

/-- The assignment `g[y][x] = c`; it panics when `y` or `x` is out of range
(a row that is still `nil` has length 0). -/
def Grid.setPixel (g : Grid) (y x : Int) (c : RGBA) : Option Grid :=
  if 0 ≤ y ∧ 0 ≤ x then
    (g[y.toNat]?).bind (fun row =>
      if x.toNat < row.length then some (g.set y.toNat (row.set x.toNat c)) else none)
  else none

/-- The integers `lo, lo+1, ..., hi-1` visited by `for i := lo; i < hi; i++`. -/
def intRange (lo hi : Int) : List Int :=
  (List.range (hi - lo).toNat).map (fun (i : Nat) => lo + (i : Int))

/-- The conversion `int(v)` of a `float64`: truncation toward zero. -/
def truncate (v : ℚ) : Int := if 0 ≤ v then ⌊v⌋ else ⌈v⌉

/-- `getColorMatrix` (lines 66-82). -/
def getColorMatrix (img : Image) : Option Grid := do
  let b := img.Bounds
  let width := b.Max.X - b.Min.X
  let height := b.Max.Y - b.Min.Y
  let result ← makeSlice height ([] : List RGBA)
  (intRange b.Min.Y b.Max.Y).foldlM (fun result y => do
    let row ← makeSlice width (⟨0, 0, 0, 0⟩ : RGBA)
    let result ← result.setRow y row
    (intRange b.Min.X b.Max.X).foldlM (fun result x =>
      let c := (img.At x y).RGBA
      result.setPixel y x ⟨uint8 c.1, uint8 c.2.1, uint8 c.2.2.1, uint8 c.2.2.2⟩) result) result

/-- The forward remap loop of `Transformer.Aff3` (lines 93-105) for the matrix
`m`, the source grid `pixels` and the source's `width` and `height`. -/
def remap (m : Aff3) (pixels : Grid) (width height : Int) : Option Grid := do
  let result ← makeSlice height ([] : List RGBA)
  (List.range result.length).foldlM (fun (result : Grid) (y : Nat) => do
    let row ← makeSlice width (⟨0, 0, 0, 0⟩ : RGBA)
    let result ← result.setRow y row
    let row0 ← result[0]?
    (List.range row0.length).foldlM (fun (result : Grid) (x : Nat) =>
      let fx : ℚ := (x : ℚ)
      let fy : ℚ := (y : ℚ)
      let tx := (m.m0 * fx) + (m.m1 * fy) + (m.m2 * 1)
      let ty := (m.m3 * fx) + (m.m4 * fy) + (m.m5 * 1)
      if tx ≥ 0 ∧ tx < (width : ℚ) ∧ ty ≥ 0 ∧ ty < (height : ℚ) then do
        let c ← pixels.pixel y x
        result.setPixel (truncate ty) (truncate tx) c
      else some result) result) result

/-- The test of line 100 for the source pixel `(x, y)`: its mapped coordinate,
before any truncation, lies in `[0, width) x [0, height)`. -/
def inCanvas (m : Aff3) (width height : Int) (x y : Nat) : Prop :=
  (m.apply ((x : ℚ), (y : ℚ))).1 ≥ 0 ∧ (m.apply ((x : ℚ), (y : ℚ))).1 < (width : ℚ) ∧
    (m.apply ((x : ℚ), (y : ℚ))).2 ≥ 0 ∧ (m.apply ((x : ℚ), (y : ℚ))).2 < (height : ℚ)

/-- The body of the inner loop of `Transformer.Aff3` (lines 97-102) for the
source pixel `(x, y)` and the destination `result`. -/
def remapStep (m : Aff3) (pixels : Grid) (width height : Int) (y : Nat) (result : Grid)
    (x : Nat) : Option Grid :=
  let fx : ℚ := (x : ℚ)
  let fy : ℚ := (y : ℚ)
  let tx := (m.m0 * fx) + (m.m1 * fy) + (m.m2 * 1)
  let ty := (m.m3 * fx) + (m.m4 * fy) + (m.m5 * 1)
  if tx ≥ 0 ∧ tx < (width : ℚ) ∧ ty ≥ 0 ∧ ty < (height : ℚ) then do
    let c ← pixels.pixel y x
    result.setPixel (truncate ty) (truncate tx) c
  else some result

/-- The body of the outer loop of `Transformer.Aff3` (lines 95-103) for the
source row `y` and the destination `result`. -/
def remapRow (m : Aff3) (pixels : Grid) (width height : Int) (result : Grid) (y : Nat) :
    Option Grid := do
  let row ← makeSlice width (⟨0, 0, 0, 0⟩ : RGBA)
  let result ← result.setRow y row
  let row0 ← result[0]?
  (List.range row0.length).foldlM (remapStep m pixels width height y) result

/-- The destination of the remap while source row `y` is scanned: it has `H`
rows, the rows below `y` are still `nil`, and row 0 holds `W` pixels. -/
def Grid.Scanning (g : Grid) (H W y : Nat) : Prop :=
  g.length = H ∧ (∀ j, y < j → j < H → g[j]? = some []) ∧
    ∃ r0, g[0]? = some r0 ∧ r0.length = W

/-- The destination of the remap before source row `y` is scanned: it has `H`
rows, the rows from `y` on are still `nil`, and row 0, once made, holds `W`
pixels. -/
def Grid.Pending (g : Grid) (H W y : Nat) : Prop :=
  g.length = H ∧ (∀ j, y ≤ j → j < H → g[j]? = some []) ∧
    (0 < y → ∃ r0, g[0]? = some r0 ∧ r0.length = W)

/-- `Transformer.Aff3` (lines 85-106): the forward remap of the source through
the composed matrix. -/
def Transformer.Aff3 (t : Transformer) (src : Image) : Option Grid := do
  let b := src.Bounds
  let width := b.Max.X - b.Min.X
  let height := b.Max.Y - b.Min.Y
  let pixels ← getColorMatrix src
  let m := t.composeOps src
  remap m pixels width height

/-- `Transformer.Apply` (lines 34-52). The sampler `draw.ApproxBiLinear.Transform`
of `golang.org/x/image/draw` is the parameter `transform`: from the destination
bounds, the matrix, the source and the source bounds it gives the colours drawn
into the destination. The destination is allocated with the source's bounds. -/
def Transformer.Apply
    (transform : Rectangle → Zomgclouds.Aff3 → Image → Rectangle → Int → Int → RGBA)
    (t : Transformer) (src : Image) : Image :=
  let rect := src.Bounds
  let m := t.ops.foldl (fun m op =>
    let om := op.Aff3 src
    (⟨m.m0 * om.m0 + m.m1 * m.m3, m.m0 * om.m1 + m.m1 * om.m4,
      m.m2 + m.m0 * om.m2 + m.m1 * om.m5,
      m.m3 * om.m0 + m.m4 * om.m3, m.m3 * om.m1 + m.m4 * om.m4,
      m.m5 + m.m3 * om.m2 + m.m4 * om.m5⟩ : Zomgclouds.Aff3))
    (⟨1, 0, 0, 0, 1, 0⟩ : Zomgclouds.Aff3)
  ⟨rect, transform rect m src src.Bounds, src.wf⟩

/-- `Translate.MTransform` (lines 121-145). -/
def Translate.MTransform (X Y : Int) (pixels : Grid) : Option Grid := do
  let height : Int := (pixels.length : Int)
  let row0 ← pixels[0]?
  let width : Int := (row0.length : Int)
  let result ← makeSlice height ([] : List RGBA)
  (List.range pixels.length).foldlM (fun (result : Grid) (y : Nat) => do
    let row ← makeSlice width (⟨0, 0, 0, 0⟩ : RGBA)
    let result ← result.setRow y row
    (List.range row0.length).foldlM (fun (result : Grid) (x : Nat) =>
      let sx : Int := (x : Int) - X
      let sy : Int := (y : Int) - Y
      if sx ≥ width ∨ sx < 0 then result.setPixel y x empty
      else if sy ≥ height ∨ sy < 0 then result.setPixel y x empty
      else do
        let c ← pixels.pixel sy sx
        result.setPixel y x c) result) result

/-- `ReflectHoriz.MTransform` (lines 154-167). -/
def ReflectHoriz.MTransform (pixels : Grid) : Option Grid := do
  let height : Int := (pixels.length : Int)
  let row0 ← pixels[0]?
  let width : Int := (row0.length : Int)
  let result ← makeSlice height ([] : List RGBA)
  (List.range pixels.length).foldlM (fun (result : Grid) (y : Nat) => do
    let row ← makeSlice width (⟨0, 0, 0, 0⟩ : RGBA)
    let result ← result.setRow y row
    (List.range row0.length).foldlM (fun (result : Grid) (x : Nat) => do
      let c ← pixels.pixel y (width - 1 - (x : Int))
      result.setPixel y x c) result) result

/-- `ReflectVert.MTransform` (lines 176-189). -/
def ReflectVert.MTransform (pixels : Grid) : Option Grid := do
  let height : Int := (pixels.length : Int)
  let row0 ← pixels[0]?
  let width : Int := (row0.length : Int)
  let result ← makeSlice height ([] : List RGBA)
  (List.range pixels.length).foldlM (fun (result : Grid) (y : Nat) => do
    let row ← makeSlice width (⟨0, 0, 0, 0⟩ : RGBA)
    let result ← result.setRow y row
    (List.range row0.length).foldlM (fun (result : Grid) (x : Nat) => do
      let c ← pixels.pixel (height - 1 - (y : Int)) x
      result.setPixel y x c) result) result

/-- The struct `AffTrans` of `affline_test.go`: the source, the canvas size and
the matrix (the draw operator, options and sampler are constants). -/
structure AffTrans where
  src : Image
  height : Int
  width : Int
  m : Aff3

/-- `NewAffTrans`. -/
def NewAffTrans (src : Image) : AffTrans :=
  ⟨src, src.Bounds.Size.Y, src.Bounds.Size.X, ⟨1, 0, 0, 0, 1, 0⟩⟩

/-- `AffTrans.Rotate90` (`affline_test.go`, lines 204-224). Go's `%` truncates
toward zero: it is `Int.tmod`. -/
def AffTrans.Rotate90 (t : AffTrans) (count : Int) : AffTrans :=
  let cx : ℚ := (t.src.Bounds.Size.X : ℚ) / 2
  let cy : ℚ := (t.src.Bounds.Size.Y : ℚ) / 2
  let swap : Bool := decide (Int.tmod count 2 > 0)
  let height := if swap then t.width else t.height
  let width := if swap then t.height else t.width
  let cy := if swap then cx else cy
  let scale : ℚ := 1
  let cos := scale * cosQuarter count
  let sin := scale * sinQuarter count
  ⟨t.src, height, width,
    ⟨cos, sin, ((1 - cos) * cx) - (sin * cy), -1 * sin, cos, (sin * cx) + ((1 - cos) * cy)⟩⟩

/-- Go's `image.Rect`: the rectangle with the given corners, put in order. -/
def Rect (x0 y0 x1 y1 : Int) : Rectangle :=
  ⟨⟨min x0 x1, min y0 y1⟩, ⟨max x0 x1, max y0 y1⟩⟩

/-- `AffTrans.Apply` (`affline_test.go`, lines 226-230): the destination is
allocated as `image.Rect(0, 0, t.width, t.height)` and filled by the sampler. -/
def AffTrans.Apply
    (transform : Rectangle → Aff3 → Image → Rectangle → Int → Int → RGBA)
    (t : AffTrans) : Image :=
  ⟨Rect 0 0 t.width t.height,
    transform (Rect 0 0 t.width t.height) t.m t.src t.src.Bounds,
    ⟨le_trans (min_le_left _ _) (le_max_left _ _),
      le_trans (min_le_left _ _) (le_max_left _ _)⟩⟩

/-- The grid of `h` rows and `w` columns whose cell `(y, x)` is `f y x`. -/
def Grid.tabulate (h w : Nat) (f : Nat → Nat → RGBA) : Grid :=
  (List.range h).map (fun y => (List.range w).map (fun x => f y x))

/-- A rectangular grid: `h` rows, each of `w` pixels. -/
def Grid.IsRect (g : Grid) (h w : Nat) : Prop :=
  g.length = h ∧ ∀ row ∈ g, row.length = w

/-! ## The range in which `float64` arithmetic is exact -/

/-- A rational that a `float64` holds exactly: `n / 2^k` with `|n| < 2^53` and
`k ≤ 1074`. An IEEE 754 sum or product whose exact value is such a number is
computed without rounding, fused or not. -/
def ExactInFloat64 (q : ℚ) : Prop :=
  ∃ (n : Int) (k : Nat), k ≤ 1074 ∧ |n| < 2 ^ 53 ∧ q = (n : ℚ) / 2 ^ k

/-- Every coefficient of the matrix is held exactly by a `float64`. -/
def Aff3.ExactInFloat64 (m : Aff3) : Prop :=
  Zomgclouds.ExactInFloat64 m.m0 ∧ Zomgclouds.ExactInFloat64 m.m1 ∧
    Zomgclouds.ExactInFloat64 m.m2 ∧ Zomgclouds.ExactInFloat64 m.m3 ∧
    Zomgclouds.ExactInFloat64 m.m4 ∧ Zomgclouds.ExactInFloat64 m.m5

/-- The operations whose matrix has only the entries `0`, `1`, `-1` and whole
translations: `ReflectHoriz`, `ReflectVert` and `Translate{X, Y}` with
`|X|, |Y| ≤ 2^50`. -/
def Affline.IsFlat (op : Affline) : Prop :=
  (∃ X Y : Int, op = .Translate X Y ∧ |X| ≤ 2 ^ 50 ∧ |Y| ≤ 2 ^ 50) ∨
    op = .ReflectHoriz ∨ op = .ReflectVert

/-- A matrix with `m1 = m3 = 0`, `m0` and `m4` each `1` or `-1`, and whole
translations `m2`, `m5` of absolute value at most `bound`. -/
def Aff3.FlatWithin (m : Aff3) (bound : Int) : Prop :=
  m.m1 = 0 ∧ m.m3 = 0 ∧ (m.m0 = 1 ∨ m.m0 = -1) ∧ (m.m4 = 1 ∨ m.m4 = -1) ∧
    ∃ c f : Int, m.m2 = (c : ℚ) ∧ m.m5 = (f : ℚ) ∧ |c| ≤ bound ∧ |f| ≤ bound

/-- A matrix whose coefficients are multiples of `2^-16` of absolute value at
most `2^16`. -/
def Aff3.Dyadic16 (m : Aff3) : Prop :=
  (∃ n : Int, |n| ≤ 2 ^ 32 ∧ m.m0 = (n : ℚ) / 2 ^ 16) ∧
  (∃ n : Int, |n| ≤ 2 ^ 32 ∧ m.m1 = (n : ℚ) / 2 ^ 16) ∧
  (∃ n : Int, |n| ≤ 2 ^ 32 ∧ m.m2 = (n : ℚ) / 2 ^ 16) ∧
  (∃ n : Int, |n| ≤ 2 ^ 32 ∧ m.m3 = (n : ℚ) / 2 ^ 16) ∧
  (∃ n : Int, |n| ≤ 2 ^ 32 ∧ m.m4 = (n : ℚ) / 2 ^ 16) ∧
  (∃ n : Int, |n| ≤ 2 ^ 32 ∧ m.m5 = (n : ℚ) / 2 ^ 16)

/-! ## The test fixture -/

/-- The test colour `z`. -/
def z : RGBA := ⟨0, 0, 0, 0⟩
/-- The test colour `R`. -/
def R : RGBA := ⟨255, 0, 0, 255⟩
/-- The test colour `G`. -/
def G : RGBA := ⟨0, 255, 0, 255⟩
/-- The test colour `B`. -/
def B : RGBA := ⟨0, 0, 255, 255⟩

/-- The test grid `basic` (10 columns, 5 rows). -/
def basic : Grid :=
  [[z, z, z, z, z, z, z, z, z, z],
   [z, z, R, R, G, G, B, z, z, z],
   [z, z, z, R, z, z, B, z, z, z],
   [z, z, z, R, G, G, B, B, z, z],
   [z, z, z, z, z, z, z, z, z, z]]

/-- A 2 x 1 image at the origin holding the row `[R, G]`. -/
def WideImage : Image :=
  ⟨⟨⟨0, 0⟩, ⟨2, 1⟩⟩, fun x _ => if x = 0 then R else G, by decide⟩

/-- The test image `BasicImage()`: a 10 x 5 image at the origin holding `basic`. -/
def BasicImage : Image :=
  ⟨⟨⟨0, 0⟩, ⟨10, 5⟩⟩, fun x y => (basic.getD y.toNat []).getD x.toNat z, by decide⟩

/-! ## The matrix fold -/

/-- The fold of `composeOps` over a chain extended by one operation. -/
theorem composeOps_snoc (ops : List Affline) (op : Affline) (src : Image) :
    Transformer.composeOps ⟨ops ++ [op]⟩ src =
      composeStep (Transformer.composeOps ⟨ops⟩ src) (op.Aff3 src) := by
  simp [Transformer.composeOps, List.foldl_append]

/-- One fold step is the standard matrix product whenever the accumulator has
`m1 = 0`. -/
theorem composeStep_eq_mul (m om : Aff3) (h : m.m1 = 0) : composeStep m om = Aff3.mul m om := by
  simp only [composeStep, Aff3.mul, h, Aff3.mk.injEq, zero_mul, add_zero, and_self, and_true,
    true_and]
  exact ⟨by ring, by ring⟩

/-- The standard product composes the point maps: `(m * om)(p) = m(om(p))`. -/
theorem Aff3.apply_mul (m om : Aff3) (p : ℚ × ℚ) :
    (Aff3.mul m om).apply p = m.apply (om.apply p) := by
  simp only [Aff3.apply, Aff3.mul, Prod.mk.injEq]
  constructor <;> ring

/-- The first fold step, from the identity matrix, yields the operation's own
matrix. -/
theorem composeStep_identity (om : Aff3) : composeStep Aff3.identity om = om := by
  cases om
  simp [composeStep, Aff3.identity]

/-- C1, refuted as stated: on the 10 x 5 fixture the chain
`[Translate{1,0}, ReflectHoriz, Translate{0,0}]` composes to a matrix that sends
the origin to `(11, 0)`, while applying the three operations in the order
appended sends it to `(9, 0)`. -/
theorem composeOps_not_append_order :
    (Transformer.composeOps
        (((NewTransformer.Add (.Translate 1 0)).Add .ReflectHoriz).Add (.Translate 0 0))
        BasicImage).apply (0, 0) = (11, 0) ∧
    ((Affline.Translate 0 0).Aff3 BasicImage).apply
        ((Affline.ReflectHoriz.Aff3 BasicImage).apply
          (((Affline.Translate 1 0).Aff3 BasicImage).apply (0, 0))) = (9, 0) ∧
    (Transformer.composeOps
        (((NewTransformer.Add (.Translate 1 0)).Add .ReflectHoriz).Add (.Translate 0 0))
        BasicImage).apply (0, 0) ≠
      ((Affline.Translate 0 0).Aff3 BasicImage).apply
        ((Affline.ReflectHoriz.Aff3 BasicImage).apply
          (((Affline.Translate 1 0).Aff3 BasicImage).apply (0, 0))) := by
  simp [Transformer.composeOps, NewTransformer, Transformer.Add, composeStep, Aff3.identity,
    Aff3.apply, Affline.Aff3, Translate.Aff3, ReflectHoriz.Aff3, Image.Bounds, Rectangle.Size,
    BasicImage]
  norm_num

/-- A whole number below `2^53` in absolute value is held exactly. -/
theorem exactInFloat64_int (n : Int) (hn : |n| < 2 ^ 53) : ExactInFloat64 (n : ℚ) :=
  ⟨n, 0, by norm_num, hn, by simp⟩

/-- A flat matrix with translations below `2^53` is held exactly. -/
theorem Aff3.exact_of_flatWithin (m : Aff3) (bound : Int) (hb : bound < 2 ^ 53)
    (hm : m.FlatWithin bound) : m.ExactInFloat64 := by
  obtain ⟨h1, h3, h0, h4, c, f, hc, hf, hcb, hfb⟩ := hm
  have e0 : Zomgclouds.ExactInFloat64 m.m0 := by
    rcases h0 with h | h <;> rw [h]
    · exact ⟨1, 0, by norm_num, by norm_num, by norm_num⟩
    · exact ⟨-1, 0, by norm_num, by norm_num, by norm_num⟩
  have e4 : Zomgclouds.ExactInFloat64 m.m4 := by
    rcases h4 with h | h <;> rw [h]
    · exact ⟨1, 0, by norm_num, by norm_num, by norm_num⟩
    · exact ⟨-1, 0, by norm_num, by norm_num, by norm_num⟩
  have ez : Zomgclouds.ExactInFloat64 0 := ⟨0, 0, by norm_num, by norm_num, by norm_num⟩
  refine ⟨e0, by rw [h1]; exact ez, ?_, by rw [h3]; exact ez, e4, ?_⟩
  · rw [hc]
    exact exactInFloat64_int c (lt_of_le_of_lt hcb hb)
  · rw [hf]
    exact exactInFloat64_int f (lt_of_le_of_lt hfb hb)

/-- The matrix of a flat operation on an image of width and height at most
`2^50`. -/
theorem Affline.flatWithin (op : Affline) (src : Image) (hop : op.IsFlat)
    (hw : src.Bounds.Size.X ≤ 2 ^ 50) (hh : src.Bounds.Size.Y ≤ 2 ^ 50) :
    (op.Aff3 src).FlatWithin (2 ^ 50) := by
  have hwf := src.wf
  have hw0 : 0 ≤ src.Bounds.Size.X := by
    simp only [Rectangle.Size, Image.Bounds]
    omega
  have hh0 : 0 ≤ src.Bounds.Size.Y := by
    simp only [Rectangle.Size, Image.Bounds]
    omega
  rcases hop with ⟨X, Y, rfl, hX, hY⟩ | rfl | rfl
  · exact ⟨rfl, rfl, Or.inl rfl, Or.inl rfl, X, Y, rfl, rfl, hX, hY⟩
  · refine ⟨rfl, rfl, Or.inr rfl, Or.inl rfl, src.Bounds.Size.X, 0, rfl, by
      simp [Affline.Aff3, ReflectHoriz.Aff3], ?_, by norm_num⟩
    rw [abs_of_nonneg hw0]
    exact hw
  · refine ⟨rfl, rfl, Or.inl rfl, Or.inr rfl, 0, src.Bounds.Size.Y, by
      simp [Affline.Aff3, ReflectVert.Aff3], rfl, by norm_num, ?_⟩
    rw [abs_of_nonneg hh0]
    exact hh

/-- A fold step of two flat matrices is flat, and its translations are bounded
by the sum of the bounds. -/
theorem composeStep_flatWithin (m om : Aff3) (b1 b2 : Int) (hm : m.FlatWithin b1)
    (hom : om.FlatWithin b2) : (composeStep m om).FlatWithin (b1 + b2) := by
  obtain ⟨h1, h3, h0, h4, c, f, hc, hf, hcb, hfb⟩ := hm
  obtain ⟨o1, o3, o0, o4, c2, f2, hc2, hf2, hcb2, hfb2⟩ := hom
  have a1 := abs_le.mp hcb
  have a2 := abs_le.mp hfb
  have a3 := abs_le.mp hcb2
  have a4 := abs_le.mp hfb2
  refine ⟨by simp [composeStep, h1, o1], by simp [composeStep, h3, o3], ?_, ?_, ?_⟩
  · rcases h0 with h | h <;> rcases o0 with o | o <;> simp [composeStep, h, o, h1]
  · rcases h4 with h | h <;> rcases o4 with o | o <;> simp [composeStep, h, o, h3]
  · have hx : ∃ c' : Int, (composeStep m om).m2 = (c' : ℚ) ∧ |c'| ≤ b1 + b2 := by
      rcases h0 with h | h
      · refine ⟨c + c2, by simp [composeStep, h, h1, hc, hc2], ?_⟩
        rw [abs_le]
        constructor <;> omega
      · refine ⟨c - c2, by simp [composeStep, h, h1, hc, hc2]; ring, ?_⟩
        rw [abs_le]
        constructor <;> omega
    have hy : ∃ f' : Int, (composeStep m om).m5 = (f' : ℚ) ∧ |f'| ≤ b1 + b2 := by
      rcases h4 with h | h
      · refine ⟨f + f2, by simp [composeStep, h, h3, hf, hf2], ?_⟩
        rw [abs_le]
        constructor <;> omega
      · refine ⟨f - f2, by simp [composeStep, h, h3, hf, hf2]; ring, ?_⟩
        rw [abs_le]
        constructor <;> omega
    obtain ⟨c', e1, e2⟩ := hx
    obtain ⟨f', e3, e4⟩ := hy
    exact ⟨c', f', e1, e3, e2, e4⟩

/-- A flat matrix sends a whole point to a whole point, moved by at most the
bound of its translations. -/
theorem Aff3.apply_flatWithin (m : Aff3) (bound : Int) (hm : m.FlatWithin bound)
    (a b : Int) :
    ∃ a' b' : Int, m.apply ((a : ℚ), (b : ℚ)) = ((a' : ℚ), (b' : ℚ)) ∧
      |a'| ≤ |a| + bound ∧ |b'| ≤ |b| + bound := by
  obtain ⟨h1, h3, h0, h4, c, f, hc, hf, hcb, hfb⟩ := hm
  have a1 := abs_le.mp hcb
  have a2 := abs_le.mp hfb
  have hx : ∃ a' : Int, (m.apply ((a : ℚ), (b : ℚ))).1 = (a' : ℚ) ∧ |a'| ≤ |a| + bound := by
    rcases h0 with h | h
    · refine ⟨a + c, by simp [Aff3.apply, h, h1, hc], ?_⟩
      rw [abs_le]
      constructor <;> cases abs_cases a <;> omega
    · refine ⟨-a + c, by simp [Aff3.apply, h, h1, hc], ?_⟩
      rw [abs_le]
      constructor <;> cases abs_cases a <;> omega
  have hy : ∃ b' : Int, (m.apply ((a : ℚ), (b : ℚ))).2 = (b' : ℚ) ∧ |b'| ≤ |b| + bound := by
    rcases h4 with h | h
    · refine ⟨b + f, by simp [Aff3.apply, h, h3, hf], ?_⟩
      rw [abs_le]
      constructor <;> cases abs_cases b <;> omega
    · refine ⟨-b + f, by simp [Aff3.apply, h, h3, hf], ?_⟩
      rw [abs_le]
      constructor <;> cases abs_cases b <;> omega
  obtain ⟨a', e1, e2⟩ := hx
  obtain ⟨b', e3, e4⟩ := hy
  exact ⟨a', b', Prod.ext e1 e3, e2, e4⟩

/-- C1, amended: for every source image of width and height at most `2^50`,
every chain `[op1, op2, op3]` of `ReflectHoriz`, `ReflectVert` and
`Translate{X, Y}` with `|X|, |Y| ≤ 2^50`, and every point `p` with whole
coordinates of absolute value at most `2^50`, the matrix returned by
`composeOps` applies the operations in the reverse of the order appended:
`M(p) = op1(op2(op3(p)))`. In this range the arithmetic of the code is exact:
the accumulator after each fold step and each of the points `op3(p)`,
`op2(op3(p))`, `op1(op2(op3(p)))` and `M(p)` has whole entries below `2^53`
in absolute value (every operand is a whole number of absolute value at most
`2^52`, so every product and partial sum is too). -/
theorem composeOps_reverse_order (src : Image) (op1 op2 op3 : Affline) (px py : Int)
    (h1 : op1.IsFlat) (h2 : op2.IsFlat) (h3 : op3.IsFlat)
    (hw : src.Bounds.Size.X ≤ 2 ^ 50) (hh : src.Bounds.Size.Y ≤ 2 ^ 50)
    (hpx : |px| ≤ 2 ^ 50) (hpy : |py| ≤ 2 ^ 50) :
    (Transformer.composeOps (((NewTransformer.Add op1).Add op2).Add op3) src).apply
        ((px : ℚ), (py : ℚ)) =
      (op1.Aff3 src).apply ((op2.Aff3 src).apply ((op3.Aff3 src).apply ((px : ℚ), (py : ℚ)))) ∧
    (Transformer.composeOps (NewTransformer.Add op1) src).ExactInFloat64 ∧
    (Transformer.composeOps ((NewTransformer.Add op1).Add op2) src).ExactInFloat64 ∧
    (Transformer.composeOps (((NewTransformer.Add op1).Add op2).Add op3) src).ExactInFloat64 ∧
    (∃ a b : Int, (op3.Aff3 src).apply ((px : ℚ), (py : ℚ)) = ((a : ℚ), (b : ℚ)) ∧
      |a| < 2 ^ 53 ∧ |b| < 2 ^ 53) ∧
    (∃ a b : Int, (op2.Aff3 src).apply ((op3.Aff3 src).apply ((px : ℚ), (py : ℚ))) =
      ((a : ℚ), (b : ℚ)) ∧ |a| < 2 ^ 53 ∧ |b| < 2 ^ 53) ∧
    (∃ a b : Int,
      (Transformer.composeOps (((NewTransformer.Add op1).Add op2).Add op3) src).apply
        ((px : ℚ), (py : ℚ)) = ((a : ℚ), (b : ℚ)) ∧ |a| < 2 ^ 53 ∧ |b| < 2 ^ 53) := by
  have f1 := Affline.flatWithin op1 src h1 hw hh
  have f2 := Affline.flatWithin op2 src h2 hw hh
  have f3 := Affline.flatWithin op3 src h3 hw hh
  have e1 : Transformer.composeOps (NewTransformer.Add op1) src = op1.Aff3 src := by
    simp [Transformer.composeOps, NewTransformer, Transformer.Add, composeStep_identity]
  have e2 : Transformer.composeOps ((NewTransformer.Add op1).Add op2) src =
      composeStep (op1.Aff3 src) (op2.Aff3 src) := by
    simp [Transformer.composeOps, NewTransformer, Transformer.Add, composeStep_identity]
  have e3 : Transformer.composeOps (((NewTransformer.Add op1).Add op2).Add op3) src =
      composeStep (composeStep (op1.Aff3 src) (op2.Aff3 src)) (op3.Aff3 src) := by
    simp [Transformer.composeOps, NewTransformer, Transformer.Add, composeStep_identity]
  have g2 := composeStep_flatWithin _ _ _ _ f1 f2
  have g3 := composeStep_flatWithin _ _ _ _ g2 f3
  have heq : (composeStep (composeStep (op1.Aff3 src) (op2.Aff3 src)) (op3.Aff3 src)).apply
      ((px : ℚ), (py : ℚ)) =
      (op1.Aff3 src).apply ((op2.Aff3 src).apply
        ((op3.Aff3 src).apply ((px : ℚ), (py : ℚ)))) := by
    rw [composeStep_eq_mul _ _ g2.1, composeStep_eq_mul _ _ f1.1, Aff3.apply_mul,
      Aff3.apply_mul]
  obtain ⟨a3, b3, p3, ha3, hb3⟩ := Aff3.apply_flatWithin _ _ f3 px py
  obtain ⟨a2, b2, p2, ha2, hb2⟩ := Aff3.apply_flatWithin _ _ f2 a3 b3
  obtain ⟨a1, b1, p1, ha1, hb1⟩ := Aff3.apply_flatWithin _ _ f1 a2 b2
  rw [e1, e2, e3]
  refine ⟨heq, Aff3.exact_of_flatWithin _ _ (by norm_num) f1,
    Aff3.exact_of_flatWithin _ _ (by norm_num) g2,
    Aff3.exact_of_flatWithin _ _ (by norm_num) g3,
    ⟨a3, b3, p3, by omega, by omega⟩, ⟨a2, b2, by rw [p3, p2], by omega, by omega⟩,
    ⟨a1, b1, by rw [heq, p3, p2, p1], by omega, by omega⟩⟩

/-- Witness of `composeOps_reverse_order` on the fixture with the chain
`[Translate{1,0}, ReflectHoriz, ReflectVert]` and the point `(2, 3)`; both
sides are `(9, 2)`. -/
theorem composeOps_reverse_order_witness :
    (Transformer.composeOps
        (((NewTransformer.Add (.Translate 1 0)).Add .ReflectHoriz).Add .ReflectVert)
        BasicImage).apply (((2 : Int) : ℚ), ((3 : Int) : ℚ)) =
      ((Affline.Translate 1 0).Aff3 BasicImage).apply
        ((Affline.ReflectHoriz.Aff3 BasicImage).apply
          ((Affline.ReflectVert.Aff3 BasicImage).apply (((2 : Int) : ℚ), ((3 : Int) : ℚ)))) :=
  (composeOps_reverse_order BasicImage (.Translate 1 0) .ReflectHoriz .ReflectVert 2 3
    (Or.inl ⟨1, 0, rfl, by norm_num, by norm_num⟩) (Or.inr (Or.inl rfl)) (Or.inr (Or.inr rfl))
    (by decide) (by decide) (by norm_num) (by norm_num)).1

/-- C3: for every source image the chain `[ReflectHoriz, ReflectHoriz]` composes
to exactly the identity matrix `{1,0,0,0,1,0}`, and so does the chain
`[ReflectVert, ReflectVert]`. -/
theorem composeOps_reflect_twice (src : Image) :
    Transformer.composeOps ((NewTransformer.Add .ReflectHoriz).Add .ReflectHoriz) src =
        ⟨1, 0, 0, 0, 1, 0⟩ ∧
      Transformer.composeOps ((NewTransformer.Add .ReflectVert).Add .ReflectVert) src =
        ⟨1, 0, 0, 0, 1, 0⟩ := by
  simp [Transformer.composeOps, NewTransformer, Transformer.Add, composeStep, Aff3.identity,
    Affline.Aff3, ReflectHoriz.Aff3, ReflectVert.Aff3]

/-- C4, evaluated: for every `k`, either `ExpandCanvas` and every image,
`Rotate{Turns: 4*k}.Aff3` returns `{1, 0, cy, 0, 1, 0}` with `cy = height / 2`;
on the 10 x 5 fixture `Rotate{Turns: 0}.Aff3` and `Rotate{Turns: 4}.Aff3` return
`{1, 0, 5/2, 0, 1, 0}`, which is not the identity matrix. -/
theorem rotate_full_turn_not_identity (e : Bool) :
    (∀ (k : Int) (img : Image),
      Rotate.Aff3 (4 * k) e img = ⟨1, 0, (img.Bounds.Size.Y : ℚ) / 2, 0, 1, 0⟩) ∧
      Rotate.Aff3 0 e BasicImage = ⟨1, 0, 5 / 2, 0, 1, 0⟩ ∧
      Rotate.Aff3 4 e BasicImage = ⟨1, 0, 5 / 2, 0, 1, 0⟩ ∧
      Rotate.Aff3 0 e BasicImage ≠ Aff3.identity ∧
      Rotate.Aff3 4 e BasicImage ≠ Aff3.identity := by
  refine ⟨?_, ?_⟩
  · intro k img
    simp [Rotate.Aff3, cosQuarter, sinQuarter]
  · simp [Rotate.Aff3, cosQuarter, sinQuarter, Image.Bounds, Rectangle.Size, BasicImage,
      Aff3.identity]

/-- C5, evaluated on the fixture: `Rotate{Turns: 2}.Aff3` returns
`{-1, 0, 25/2, 0, -1, 5}` on the 10 x 5 image, while the chain
`[ReflectVert, ReflectHoriz]` composes to `{-1, 0, 10, 0, -1, 5}`. -/
theorem rotate_half_turn_ne_flips :
    Rotate.Aff3 2 false BasicImage = ⟨-1, 0, 25 / 2, 0, -1, 5⟩ ∧
      Transformer.composeOps ((NewTransformer.Add .ReflectVert).Add .ReflectHoriz) BasicImage =
        ⟨-1, 0, 10, 0, -1, 5⟩ ∧
      Rotate.Aff3 2 false BasicImage ≠
        Transformer.composeOps ((NewTransformer.Add .ReflectVert).Add .ReflectHoriz)
          BasicImage := by
  simp [Rotate.Aff3, cosQuarter, sinQuarter, Image.Bounds, Rectangle.Size, BasicImage,
    Transformer.composeOps, NewTransformer, Transformer.Add, composeStep, Aff3.identity,
    Affline.Aff3, ReflectHoriz.Aff3, ReflectVert.Aff3]
  norm_num

/-- C8, evaluated: for every turn count and image, `Rotate.Aff3` returns
`{cos, sin, (1 - cos)*cx - (sin - cy), -sin, cos, sin*cx + (1 - cos)*cy}`; for
one quarter turn on the 10 x 5 fixture (`cx = 5`, `cy = 5/2`, `cos = 0`,
`sin = 1`) that is `m2 = 13/2`, where the pivot formula `(1 - cos)*cx - sin*cy`
gives `5/2`. The other five coefficients are those of the pivot formula. -/
theorem rotate_quarter_turn_m2 :
    (∀ (t : Int) (e : Bool) (img : Image),
      Rotate.Aff3 t e img =
        ⟨cosQuarter t, sinQuarter t,
          (1 - cosQuarter t) * ((img.Bounds.Size.X : ℚ) / 2) -
            (sinQuarter t - (img.Bounds.Size.Y : ℚ) / 2),
          -sinQuarter t, cosQuarter t,
          sinQuarter t * ((img.Bounds.Size.X : ℚ) / 2) +
            (1 - cosQuarter t) * ((img.Bounds.Size.Y : ℚ) / 2)⟩) ∧
      Rotate.Aff3 1 false BasicImage = ⟨0, 1, 13 / 2, -1, 0, 15 / 2⟩ ∧
      (1 - cosQuarter 1) * (10 / 2) - sinQuarter 1 * (5 / 2) = 5 / 2 ∧
      sinQuarter 1 * (10 / 2) + (1 - cosQuarter 1) * (5 / 2) = 15 / 2 := by
  refine ⟨?_, ?_⟩
  · intro t e img
    simp [Rotate.Aff3]
  · simp [Rotate.Aff3, cosQuarter, sinQuarter, Image.Bounds, Rectangle.Size, BasicImage]
    norm_num

/-- C9, evaluated on the fixture: with the accumulator left by one quarter turn,
`{0, 1, 13/2, -1, 0, 15/2}`, the fold step for `Translate{0,0}` (the identity
matrix) returns `m0 = -1`, where the standard product `m * om` has `m0 = 0`. -/
theorem composeStep_not_product :
    composeStep (Rotate.Aff3 1 false BasicImage) (Translate.Aff3 0 0 BasicImage) =
        ⟨-1, 1, 13 / 2, -1, 0, 15 / 2⟩ ∧
      Aff3.mul (Rotate.Aff3 1 false BasicImage) (Translate.Aff3 0 0 BasicImage) =
        ⟨0, 1, 13 / 2, -1, 0, 15 / 2⟩ ∧
      (composeStep (Rotate.Aff3 1 false BasicImage) (Translate.Aff3 0 0 BasicImage)).apply (1, 0) ≠
        (Rotate.Aff3 1 false BasicImage).apply ((Translate.Aff3 0 0 BasicImage).apply (1, 0)) := by
  simp [Rotate.Aff3, cosQuarter, sinQuarter, Image.Bounds, Rectangle.Size, BasicImage,
    composeStep, Aff3.mul, Translate.Aff3, Aff3.apply]
  norm_num

/-! ## Row-by-row loops over a grid -/

/-- A write into an allocated row at a column inside it. -/
theorem Grid.setPixel_row (g : Grid) (y x : Nat) (c : RGBA) (r : List RGBA)
    (hg : g[y]? = some r) (hx : x < r.length) :
    g.setPixel (y : Int) (x : Int) c = some (g.set y (r.set x c)) := by
  simp [Grid.setPixel, hg, hx]

/-- Writing back the value an index already holds changes nothing. -/
theorem set_of_getElem? {α : Type} (l : List α) (i : Nat) (a : α) (h : l[i]? = some a) :
    l.set i a = l := by
  apply List.ext_getElem?
  intro j
  by_cases hij : i = j
  · subst hij
    obtain ⟨hi, _⟩ := List.getElem?_eq_some.mp h
    rw [List.getElem?_set_self hi, h]
  · rw [List.getElem?_set_ne hij]

/-- The list identity behind one step of a row loop. -/
theorem set_map_range_append_drop (f : Nat → RGBA) (r : List RGBA) (k : Nat) (hk : k < r.length) :
    ((List.range k).map f ++ r.drop k).set k (f k) =
      (List.range (k + 1)).map f ++ r.drop (k + 1) := by
  rw [List.set_append_right _ _ (by simp), List.drop_eq_getElem_cons hk]
  simp only [List.length_map, List.length_range, Nat.sub_self, List.set_cons_zero,
    List.range_succ, List.map_append, List.map_cons, List.map_nil, List.append_assoc,
    List.singleton_append]

/-- An inner loop that writes `f x` to cell `(y, x)` for `x = 0, ..., k-1`
leaves row `y` holding those values followed by the rest of the old row. -/
theorem rowLoop_upto (y w : Nat) (f : Nat → RGBA) (step : Grid → Nat → Option Grid)
    (hstep : ∀ x, x < w → ∀ g : Grid, step g x = g.setPixel (y : Int) (x : Int) (f x))
    (g : Grid) (r : List RGBA) (hy : y < g.length) (hg : g[y]? = some r) (hr : r.length = w) :
    ∀ k, k ≤ w →
      (List.range k).foldlM step g = some (g.set y ((List.range k).map f ++ r.drop k)) := by
  intro k
  induction k with
  | zero =>
    intro _
    simp [set_of_getElem? g y r hg]
  | succ k ih =>
    intro hk
    have hk' : k < w := hk
    rw [List.range_succ, List.foldlM_append, ih (Nat.le_of_lt hk')]
    have hrow : (g.set y ((List.range k).map f ++ r.drop k))[y]? =
        some ((List.range k).map f ++ r.drop k) := List.getElem?_set_self hy
    have hlen : k < ((List.range k).map f ++ r.drop k).length := by
      simp
      omega
    simp only [List.foldlM_cons, List.foldlM_nil, Option.bind_eq_bind, Option.some_bind,
      bind_pure, hstep k hk', Grid.setPixel_row _ y k (f k) _ hrow hlen, List.set_set,
      set_map_range_append_drop f r k (by omega)]
    rw [List.range_succ]

/-- An inner loop that writes `f x` to every cell `(y, x)` of an allocated row
of width `w` leaves row `y` holding `f 0, ..., f (w-1)`. -/
theorem rowLoop (y w : Nat) (f : Nat → RGBA) (step : Grid → Nat → Option Grid)
    (hstep : ∀ x, x < w → ∀ g : Grid, step g x = g.setPixel (y : Int) (x : Int) (f x))
    (g : Grid) (r : List RGBA) (hy : y < g.length) (hg : g[y]? = some r) (hr : r.length = w) :
    (List.range w).foldlM step g = some (g.set y ((List.range w).map f)) := by
  rw [rowLoop_upto y w f step hstep g r hy hg hr w (Nat.le_refl w)]
  simp [← hr]

/-- An outer loop whose iteration `y` replaces row `y` by `rowf y` turns
`h` empty rows into the rows `rowf 0, ..., rowf (h-1)`. -/
theorem outerLoop_upto (h : Nat) (rowf : Nat → List RGBA) (step : Grid → Nat → Option Grid)
    (hstep : ∀ y, y < h → ∀ g : Grid,
      g = (List.range y).map rowf ++ List.replicate (h - y) [] →
      step g y = some (g.set y (rowf y))) :
    ∀ k, k ≤ h →
      (List.range k).foldlM step (List.replicate h []) =
        some ((List.range k).map rowf ++ List.replicate (h - k) []) := by
  intro k
  induction k with
  | zero => intro _; simp
  | succ k ih =>
    intro hk
    have hk' : k < h := hk
    rw [List.range_succ, List.foldlM_append, ih (Nat.le_of_lt hk')]
    simp only [List.foldlM_cons, List.foldlM_nil, Option.bind_eq_bind, Option.some_bind,
      bind_pure, hstep k hk' _ rfl]
    rw [List.set_append_right _ _ (by simp)]
    have e : h - k = (h - (k + 1)) + 1 := by omega
    simp [e, List.replicate_succ, List.range_succ]

/-- The closed form of a complete outer loop. -/
theorem outerLoop (h : Nat) (rowf : Nat → List RGBA) (step : Grid → Nat → Option Grid)
    (hstep : ∀ y, y < h → ∀ g : Grid,
      g = (List.range y).map rowf ++ List.replicate (h - y) [] →
      step g y = some (g.set y (rowf y))) :
    (List.range h).foldlM step (List.replicate h []) = some ((List.range h).map rowf) := by
  rw [outerLoop_upto h rowf step hstep h (Nat.le_refl h)]
  simp

/-- Allocating a slice of a natural length. -/
theorem makeSlice_natCast {α : Type} (n : Nat) (zero : α) :
    makeSlice (n : Int) zero = some (List.replicate n zero) := by
  simp [makeSlice]

/-- The body of an outer iteration: store a fresh row `y` and fill it cell by
cell. -/
theorem fillRow (y w : Nat) (f : Nat → RGBA) (inner : Grid → Nat → Option Grid)
    (hinner : ∀ x, x < w → ∀ g : Grid, inner g x = g.setPixel (y : Int) (x : Int) (f x))
    (g : Grid) (hy : y < g.length) :
    ((g.setRow (y : Int) (List.replicate w ⟨0, 0, 0, 0⟩)).bind fun g1 =>
      (List.range w).foldlM inner g1) = some (g.set y ((List.range w).map f)) := by
  have hy' : (y : Int) < (g.length : Int) := by exact_mod_cast hy
  simp only [Grid.setRow, Int.natCast_nonneg, if_true, hy', and_self,
    Int.toNat_ofNat, Option.some_bind]
  rw [rowLoop y w f inner hinner (g.set y (List.replicate w ⟨0, 0, 0, 0⟩))
    (List.replicate w ⟨0, 0, 0, 0⟩) (by simpa using hy) (List.getElem?_set_self hy) (by simp)]
  rw [List.set_set]

/-- Rows and cells of a tabulated grid. -/
theorem Grid.tabulate_isRect (h w : Nat) (f : Nat → Nat → RGBA) :
    (Grid.tabulate h w f).IsRect h w := by
  constructor
  · simp [Grid.tabulate]
  · intro row hrow
    simp only [Grid.tabulate, List.mem_map] at hrow
    obtain ⟨y, _, rfl⟩ := hrow
    simp

/-- Reading a cell of a tabulated grid. -/
theorem Grid.pixel_tabulate (h w : Nat) (f : Nat → Nat → RGBA) (y x : Nat)
    (hy : y < h) (hx : x < w) :
    (Grid.tabulate h w f).pixel (y : Int) (x : Int) = some (f y x) := by
  simp [Grid.pixel, Grid.tabulate, List.getElem?_range hy, List.getElem?_range hx]

/-! ## `getColorMatrix` -/

/-- Truncating the 16-bit channel `v * 257` to `uint8` recovers `v`. -/
theorem uint8_widen (v : Fin 256) : uint8 (v.val * 257) = v := by
  apply Fin.ext
  simp only [uint8]
  omega

/-- The colour rebuilt from the truncated channels of `RGBA()` is the colour. -/
theorem uint8_RGBA (c : RGBA) :
    (⟨uint8 c.RGBA.1, uint8 c.RGBA.2.1, uint8 c.RGBA.2.2.1, uint8 c.RGBA.2.2.2⟩ : RGBA) = c := by
  cases c
  simp [RGBA.RGBA, uint8_widen]

/-- A loop `for i := 0; i < n; i++` over `int` visits the naturals below `n`. -/
theorem foldlM_intRange_zero {σ : Type} (f : σ → Int → Option σ) (s : σ) (n : Nat) :
    (intRange 0 (n : Int)).foldlM f s =
      (List.range n).foldlM (fun (s : σ) (i : Nat) => f s (i : Int)) s := by
  simp only [intRange, sub_zero, Int.toNat_ofNat, List.foldlM_map, zero_add]

/-- For an image whose bounds start at the origin, `getColorMatrix` returns the
grid of its pixels: `height` rows of `width` colours, cell `(y, x)` holding the
colour at `(x, y)`. -/
theorem getColorMatrix_origin (img : Image) (hmin : img.Bounds.Min = ⟨0, 0⟩) :
    getColorMatrix img =
      some (Grid.tabulate img.Bounds.Max.Y.toNat img.Bounds.Max.X.toNat
        (fun y x => img.At (x : Int) (y : Int))) := by
  obtain ⟨⟨⟨minx, miny⟩, ⟨maxx, maxy⟩⟩, pix, wf⟩ := img
  simp only [Image.Bounds, Point.mk.injEq] at hmin
  obtain ⟨rfl, rfl⟩ := hmin
  simp only at wf
  lift maxx to ℕ using wf.1
  lift maxy to ℕ using wf.2
  simp only [getColorMatrix, Image.Bounds, foldlM_intRange_zero, sub_zero, Int.toNat_ofNat,
    Option.bind_eq_bind, Grid.tabulate, uint8_RGBA]
  simp only [makeSlice_natCast, Option.some_bind]
  apply outerLoop
  intro y hy g hg
  have hlen : y < g.length := by
    rw [hg]
    simp
    omega
  exact fillRow y maxx _ _ (fun x _ g => rfl) g hlen

/-! ## The forward remap with the identity matrix -/

/-- Converting a whole number back to `int` gives the number. -/
theorem truncate_natCast (n : Nat) : truncate (n : ℚ) = (n : Int) := by
  simp [truncate]

/-- With the identity matrix the forward remap of a `h x w` grid returns the
grid itself. -/
theorem remap_identity (h w : Nat) (P : Nat → Nat → RGBA) :
    remap Aff3.identity (Grid.tabulate h w P) (w : Int) (h : Int) =
      some (Grid.tabulate h w P) := by
  simp only [remap, makeSlice_natCast, Option.bind_eq_bind, Option.some_bind,
    List.length_replicate]
  rw [Grid.tabulate]
  apply outerLoop
  intro y hy g hg
  have hlen : y < g.length := by
    rw [hg]
    simp
    omega
  have hy' : (y : Int) < (g.length : Int) := by exact_mod_cast hlen
  have h0 : ∃ r0, (g.set y (List.replicate w (⟨0, 0, 0, 0⟩ : RGBA)))[0]? = some r0 ∧
      r0.length = w := by
    by_cases hy0 : y = 0
    · subst hy0
      exact ⟨_, List.getElem?_set_self hlen, by simp⟩
    · refine ⟨(List.range w).map (fun x => P 0 x), ?_, by simp⟩
      rw [List.getElem?_set_ne hy0, hg]
      have : 0 < y := Nat.pos_of_ne_zero hy0
      rw [List.getElem?_append_left (by simpa using this)]
      simp [List.getElem?_range this]
  obtain ⟨r0, hr0, hr0len⟩ := h0
  simp only [Grid.setRow, Int.natCast_nonneg, hy', and_self, if_true, Int.toNat_ofNat,
    Option.some_bind, hr0, hr0len]
  rw [rowLoop y w (fun x => P y x) _ ?_ (g.set y (List.replicate w ⟨0, 0, 0, 0⟩))
    (List.replicate w ⟨0, 0, 0, 0⟩) (by simpa using hlen) (List.getElem?_set_self hlen) (by simp)]
  · rw [List.set_set]
  · intro x hx g1
    have hxw : (x : ℚ) < (w : ℚ) := by exact_mod_cast hx
    have hyh : (y : ℚ) < (h : ℚ) := by exact_mod_cast hy
    have hpix := Grid.pixel_tabulate h w P y x hy hx
    rw [Grid.tabulate] at hpix
    simp only [Aff3.identity, one_mul, zero_mul, add_zero, zero_add, mul_one, ge_iff_le,
      Nat.cast_nonneg, Int.cast_natCast, hxw, hyh, and_self, if_true, hpix, Option.some_bind,
      truncate_natCast]

/-- The forward remap of an empty chain over an image at the origin returns
the grid of the image's pixels. -/
theorem Aff3_empty_chain (src : Image) (hmin : src.Bounds.Min = ⟨0, 0⟩) (W H : Nat)
    (hW : src.Bounds.Max.X = (W : Int)) (hH : src.Bounds.Max.Y = (H : Int)) :
    Transformer.Aff3 NewTransformer src =
      some (Grid.tabulate H W (fun y x => src.At (x : Int) (y : Int))) := by
  have hc : Transformer.composeOps NewTransformer src = Aff3.identity := rfl
  have hg := getColorMatrix_origin src hmin
  rw [hW, hH, Int.toNat_ofNat, Int.toNat_ofNat] at hg
  have hX : src.Bounds.Min.X = 0 := by rw [hmin]
  have hY : src.Bounds.Min.Y = 0 := by rw [hmin]
  simp only [Transformer.Aff3, hg, hc, hW, hH, hX, hY, sub_zero, Option.bind_eq_bind,
    Option.some_bind]
  exact remap_identity H W (fun y x => src.At (x : Int) (y : Int))

/-- C2: for every RGBA source image whose bounds start at (0,0), a Transformer
with no operations composes to the identity matrix `{1,0,0,0,1,0}`, and its
forward remap `Transformer.Aff3` returns a grid of `height` rows of `width`
pixels whose cell `[y][x]` holds the colour of source pixel `(x, y)` for every
`(x, y)` in bounds. -/
theorem empty_chain_identity (src : Image) (hmin : src.Bounds.Min = ⟨0, 0⟩) :
    Transformer.composeOps NewTransformer src = ⟨1, 0, 0, 0, 1, 0⟩ ∧
    ∃ out : Grid, Transformer.Aff3 NewTransformer src = some out ∧
      (out.length : Int) = src.Bounds.Max.Y - src.Bounds.Min.Y ∧
      (∀ row ∈ out, (row.length : Int) = src.Bounds.Max.X - src.Bounds.Min.X) ∧
      ∀ x y : Int, src.Bounds.Min.X ≤ x → x < src.Bounds.Max.X →
        src.Bounds.Min.Y ≤ y → y < src.Bounds.Max.Y →
        out.pixel y x = some (src.At x y) := by
  refine ⟨rfl, ?_⟩
  have hwf : src.Bounds.Min.X ≤ src.Bounds.Max.X ∧ src.Bounds.Min.Y ≤ src.Bounds.Max.Y := src.wf
  have hX : src.Bounds.Min.X = 0 := by rw [hmin]
  have hY : src.Bounds.Min.Y = 0 := by rw [hmin]
  rw [hX, hY] at hwf
  obtain ⟨W, hW⟩ := Int.eq_ofNat_of_zero_le hwf.1
  obtain ⟨H, hH⟩ := Int.eq_ofNat_of_zero_le hwf.2
  have hrect := Grid.tabulate_isRect H W (fun y x => src.At (x : Int) (y : Int))
  refine ⟨Grid.tabulate H W (fun y x => src.At (x : Int) (y : Int)),
    Aff3_empty_chain src hmin W H hW hH, ?_, ?_, ?_⟩
  · rw [hrect.1, hH, hY, sub_zero]
  · intro row hrow
    rw [hrect.2 row hrow, hW, hX, sub_zero]
  · intro x y hx0 hx1 hy0 hy1
    rw [hX] at hx0
    rw [hY] at hy0
    rw [hW] at hx1
    rw [hH] at hy1
    obtain ⟨x, rfl⟩ := Int.eq_ofNat_of_zero_le hx0
    obtain ⟨y, rfl⟩ := Int.eq_ofNat_of_zero_le hy0
    exact Grid.pixel_tabulate H W (fun y x => src.At (x : Int) (y : Int)) y x
      (by exact_mod_cast hy1) (by exact_mod_cast hx1)

/-- Witness of `empty_chain_identity` on the 10 x 5 fixture. -/
theorem empty_chain_identity_witness :
    BasicImage.Bounds.Min = ⟨0, 0⟩ ∧
    Transformer.composeOps NewTransformer BasicImage = ⟨1, 0, 0, 0, 1, 0⟩ ∧
    ∃ out : Grid, Transformer.Aff3 NewTransformer BasicImage = some out ∧
      (out.length : Int) = BasicImage.Bounds.Max.Y - BasicImage.Bounds.Min.Y ∧
      (∀ row ∈ out, (row.length : Int) = BasicImage.Bounds.Max.X - BasicImage.Bounds.Min.X) ∧
      ∀ x y : Int, BasicImage.Bounds.Min.X ≤ x → x < BasicImage.Bounds.Max.X →
        BasicImage.Bounds.Min.Y ≤ y → y < BasicImage.Bounds.Max.Y →
        out.pixel y x = some (BasicImage.At x y) :=
  ⟨rfl, empty_chain_identity BasicImage rfl⟩

/-! ## Rotation through the transformer -/

/-- The pixel grid of the fixture is `basic`. -/
theorem getColorMatrix_BasicImage : getColorMatrix BasicImage = some basic := by
  rw [getColorMatrix_origin BasicImage rfl]
  decide

/-- The matrix the chain `[Rotate{1, true}]` composes to on the fixture. -/
theorem composeOps_rotate_BasicImage :
    Transformer.composeOps (NewTransformer.Add (.Rotate 1 true)) BasicImage =
      ⟨0, 1, 13 / 2, -1, 0, 15 / 2⟩ := by
  simp [Transformer.composeOps, NewTransformer, Transformer.Add, composeStep, Aff3.identity,
    Affline.Aff3, Rotate.Aff3, cosQuarter, sinQuarter, Image.Bounds, Rectangle.Size, BasicImage]
  norm_num

/-- A loop panics when its first iteration does. -/
theorem foldlM_cons_none {σ α : Type} (f : σ → α → Option σ) (s : σ) (a : α) (l : List α)
    (h : f s a = none) : (a :: l).foldlM f s = none := by
  simp [h]

/-- A loop panics when, after iterations that leave the state unchanged, an
iteration panics. -/
theorem foldlM_none_of_skip {σ α : Type} (f : σ → α → Option σ) (s : σ) (l1 : List α) (a : α)
    (l2 : List α) (hskip : ∀ b ∈ l1, f s b = some s) (hfail : f s a = none) :
    (l1 ++ a :: l2).foldlM f s = none := by
  induction l1 with
  | nil => exact foldlM_cons_none f s a l2 hfail
  | cons b l1 ih =>
    have hb : f s b = some s := hskip b (List.mem_cons_self b l1)
    simp only [List.cons_append, List.foldlM_cons, hb, Option.bind_eq_bind, Option.some_bind]
    exact ih (fun c hc => hskip c (List.mem_cons_of_mem b hc))

/-- C7, evaluated on the fixture: the forward remap of the 10 x 5 image through
the chain `[Rotate{1, true}]` panics. Source pixel `(3, 0)` maps to
`(13/2, 9/2)`, inside the 10 x 5 canvas, and the write to `result[4][6]` comes
while only row 0 of `result` is allocated. -/
theorem rotate_quarter_remap_panics :
    Transformer.Aff3 (NewTransformer.Add (.Rotate 1 true)) BasicImage = none := by
  simp only [Transformer.Aff3, getColorMatrix_BasicImage, composeOps_rotate_BasicImage,
    Option.bind_eq_bind, Option.some_bind]
  show remap ⟨0, 1, 13 / 2, -1, 0, 15 / 2⟩ basic ((10 : Nat) : Int) ((5 : Nat) : Int) = none
  simp only [remap, makeSlice_natCast, Option.bind_eq_bind, Option.some_bind,
    List.length_replicate]
  rw [show List.range 5 = 0 :: [1, 2, 3, 4] from rfl]
  apply foldlM_cons_none
  have hrow : Grid.setRow (List.replicate 5 []) ((0 : Nat) : Int)
      (List.replicate 10 (⟨0, 0, 0, 0⟩ : RGBA)) =
      some (List.replicate 10 (⟨0, 0, 0, 0⟩ : RGBA) :: List.replicate 4 []) := by decide
  simp only [hrow, Option.some_bind, List.getElem?_cons_zero, List.length_replicate]
  rw [show List.range 10 = [0, 1, 2] ++ 3 :: [4, 5, 6, 7, 8, 9] from rfl]
  apply foldlM_none_of_skip
  · intro b hb
    simp only [List.mem_cons, List.mem_singleton, List.not_mem_nil, or_false] at hb
    rcases hb with rfl | rfl | rfl <;> norm_num
  · have hty : truncate (-1 * ((3 : Nat) : ℚ) + 0 * ((0 : Nat) : ℚ) + 15 / 2 * 1) = 4 := by
      norm_num [truncate]
    have htx : truncate (0 * ((3 : Nat) : ℚ) + 1 * ((0 : Nat) : ℚ) + 13 / 2 * 1) = 6 := by
      norm_num [truncate]
    have hpix : basic.pixel ((0 : Nat) : Int) ((3 : Nat) : Int) = some z := by decide
    have hset : Grid.setPixel (List.replicate 10 (⟨0, 0, 0, 0⟩ : RGBA) :: List.replicate 4 [])
        4 6 z = none := by decide
    rw [if_pos (by norm_num), hpix, Option.some_bind, hty, htx, hset]

/-- The pixel grid of the 2 x 1 image. -/
theorem getColorMatrix_WideImage : getColorMatrix WideImage = some [[R, G]] := by
  rw [getColorMatrix_origin WideImage rfl]
  decide

/-- The matrix the chain `[Rotate{1, true}]` composes to on the 2 x 1 image. -/
theorem composeOps_rotate_WideImage :
    Transformer.composeOps (NewTransformer.Add (.Rotate 1 true)) WideImage =
      ⟨0, 1, 1 / 2, -1, 0, 3 / 2⟩ := by
  simp [Transformer.composeOps, NewTransformer, Transformer.Add, composeStep, Aff3.identity,
    Affline.Aff3, Rotate.Aff3, cosQuarter, sinQuarter, Image.Bounds, Rectangle.Size, WideImage]
  norm_num

/-- C6, evaluated: with the chain `[Rotate{1, true}]`, the destination of
`Transformer.Apply` has the bounds of the source, for every source and every
sampler (on the 10 x 5 fixture its size is 10 x 5, not 5 x 10), and the grid
returned by `Transformer.Aff3` for the 2 x 1 image `[R, G]` is `[[G, z]]`: one
row of two pixels, not two rows of one. -/
theorem rotate_expand_keeps_canvas
    (transform : Rectangle → Aff3 → Image → Rectangle → Int → Int → RGBA) :
    (∀ src : Image,
      (Transformer.Apply transform (NewTransformer.Add (.Rotate 1 true)) src).Bounds =
        src.Bounds) ∧
    (Transformer.Apply transform (NewTransformer.Add (.Rotate 1 true)) BasicImage).Bounds.Size =
      ⟨10, 5⟩ ∧
    Transformer.Aff3 (NewTransformer.Add (.Rotate 1 true)) WideImage = some [[G, z]] := by
  refine ⟨fun _ => rfl, rfl, ?_⟩
  simp only [Transformer.Aff3, getColorMatrix_WideImage, composeOps_rotate_WideImage,
    Option.bind_eq_bind, Option.some_bind]
  show remap ⟨0, 1, 1 / 2, -1, 0, 3 / 2⟩ [[R, G]] ((2 : Nat) : Int) ((1 : Nat) : Int) = _
  simp only [remap, makeSlice_natCast, Option.bind_eq_bind, Option.some_bind,
    List.length_replicate]
  rw [show List.range 1 = [0] from rfl]
  have hrow : Grid.setRow (List.replicate 1 []) ((0 : Nat) : Int)
      (List.replicate 2 (⟨0, 0, 0, 0⟩ : RGBA)) = some [[z, z]] := by decide
  simp only [List.foldlM_cons, List.foldlM_nil, hrow, Option.bind_eq_bind, Option.some_bind,
    List.getElem?_cons_zero, List.length_cons, List.length_nil]
  rw [show List.range (0 + 1 + 1) = [0, 1] from rfl]
  have hty : truncate (-1 * ((1 : Nat) : ℚ) + 0 * ((0 : Nat) : ℚ) + 3 / 2 * 1) = 0 := by
    norm_num [truncate]
  have htx : truncate (0 * ((1 : Nat) : ℚ) + 1 * ((0 : Nat) : ℚ) + 1 / 2 * 1) = 0 := by
    norm_num [truncate]
  have hpix : Grid.pixel [[R, G]] ((0 : Nat) : Int) ((1 : Nat) : Int) = some G := by decide
  have hset : Grid.setPixel [[z, z]] 0 0 G = some [[G, z]] := by decide
  simp only [List.foldlM_cons, List.foldlM_nil, Option.bind_eq_bind]
  rw [if_neg (by norm_num), Option.some_bind, if_pos (by norm_num), hpix, Option.some_bind,
    hty, htx, hset]
  rfl

/-! ## `Translate.MTransform` -/

/-- Reading a cell inside a rectangular grid succeeds. -/
theorem Grid.pixel_of_isRect (g : Grid) (h w : Nat) (hrect : g.IsRect h w) (sy sx : Int)
    (hy0 : 0 ≤ sy) (hy1 : sy < (h : Int)) (hx0 : 0 ≤ sx) (hx1 : sx < (w : Int)) :
    g.pixel sy sx = some ((g.getD sy.toNat []).getD sx.toNat empty) := by
  obtain ⟨sy, rfl⟩ := Int.eq_ofNat_of_zero_le hy0
  obtain ⟨sx, rfl⟩ := Int.eq_ofNat_of_zero_le hx0
  have hy : sy < g.length := by
    rw [hrect.1]
    exact_mod_cast hy1
  have hrow : (g[sy]).length = w := hrect.2 _ (List.getElem_mem hy)
  have hx : sx < (g[sy]).length := by
    rw [hrow]
    exact_mod_cast hx1
  simp [Grid.pixel, List.getElem?_eq_getElem hy, List.getElem?_eq_getElem hx, List.getD_eq_getElem?_getD]

/-- For a non-empty rectangular grid, `Translate.MTransform` returns the grid
of the same shape whose cell `(y, x)` is the source cell `(y - Y, x - X)` when
that lies inside the grid and `empty` otherwise. -/
theorem Translate.MTransform_eq (X Y : Int) (g : Grid) (h w : Nat) (hrect : g.IsRect h w)
    (hpos : 0 < h) :
    Translate.MTransform X Y g = some (Grid.tabulate h w (fun y x =>
      if (x : Int) - X ≥ (w : Int) ∨ (x : Int) - X < 0 then empty
      else if (y : Int) - Y ≥ (h : Int) ∨ (y : Int) - Y < 0 then empty
      else (g.getD ((y : Int) - Y).toNat []).getD ((x : Int) - X).toNat empty)) := by
  have h0 : 0 < g.length := by rw [hrect.1]; exact hpos
  have hrow0 : (g[0]).length = w := hrect.2 _ (List.getElem_mem h0)
  simp only [Translate.MTransform, List.getElem?_eq_getElem h0, Option.bind_eq_bind,
    Option.some_bind, hrow0, hrect.1, makeSlice_natCast]
  rw [Grid.tabulate]
  apply outerLoop
  intro y hy g1 hg1
  have hlen : y < g1.length := by
    rw [hg1]
    simp
    omega
  refine fillRow y w _ _ ?_ g1 hlen
  intro x hx g2
  by_cases c1 : (x : Int) - X ≥ (w : Int) ∨ (x : Int) - X < 0
  · simp only [c1, if_true]
  · by_cases c2 : (y : Int) - Y ≥ (h : Int) ∨ (y : Int) - Y < 0
    · simp only [c1, c2, if_true, if_false]
    · simp only [c1, c2, if_false]
      rw [Grid.pixel_of_isRect g h w hrect _ _ (by omega) (by omega) (by omega) (by omega)]
      rfl

/-- C10: for every non-empty rectangular pixel grid `g` of width `w` and height
`h` and all integers `dx`, `dy`, `Translate{dx,dy}.MTransform` and then
`Translate{-dx,-dy}.MTransform` both return a grid, and the final `h x w` grid
equals `g` at every cell `(x, y)` whose translated position `(x+dx, y+dy)` lies
inside `[0,w) x [0,h)` and is `(0,0,0,0)` at every other cell. -/
theorem translate_back_and_forth (g : Grid) (h w : Nat) (hrect : g.IsRect h w) (hpos : 0 < h)
    (dx dy : Int) :
    ∃ g1 g2 : Grid, Translate.MTransform dx dy g = some g1 ∧
      Translate.MTransform (-dx) (-dy) g1 = some g2 ∧ g2.IsRect h w ∧
      ∀ x y : Nat, x < w → y < h →
        g2.pixel (y : Int) (x : Int) =
          if 0 ≤ (x : Int) + dx ∧ (x : Int) + dx < (w : Int) ∧
              0 ≤ (y : Int) + dy ∧ (y : Int) + dy < (h : Int)
          then g.pixel (y : Int) (x : Int) else some ⟨0, 0, 0, 0⟩ := by
  have hrect1 := Grid.tabulate_isRect h w (fun y x =>
      if (x : Int) - dx ≥ (w : Int) ∨ (x : Int) - dx < 0 then empty
      else if (y : Int) - dy ≥ (h : Int) ∨ (y : Int) - dy < 0 then empty
      else (g.getD ((y : Int) - dy).toNat []).getD ((x : Int) - dx).toNat empty)
  refine ⟨_, _, Translate.MTransform_eq dx dy g h w hrect hpos,
    Translate.MTransform_eq (-dx) (-dy) _ h w hrect1 hpos, Grid.tabulate_isRect _ _ _, ?_⟩
  intro x y hx hy
  rw [Grid.pixel_tabulate h w _ y x hy hx]
  by_cases c : 0 ≤ (x : Int) + dx ∧ (x : Int) + dx < (w : Int) ∧
      0 ≤ (y : Int) + dy ∧ (y : Int) + dy < (h : Int)
  · obtain ⟨c1, c2, c3, c4⟩ := c
    have n1 : ¬ ((x : Int) - -dx ≥ (w : Int) ∨ (x : Int) - -dx < 0) := by omega
    have n2 : ¬ ((y : Int) - -dy ≥ (h : Int) ∨ (y : Int) - -dy < 0) := by omega
    rw [if_neg n1, if_neg n2, if_pos ⟨c1, c2, c3, c4⟩]
    have hsx : (((x : Int) - -dx).toNat : Int) = (x : Int) + dx := by omega
    have hsy : (((y : Int) - -dy).toNat : Int) = (y : Int) + dy := by omega
    have e1 := Grid.pixel_of_isRect _ h w hrect1 ((y : Int) - -dy) ((x : Int) - -dx)
      (by omega) (by omega) (by omega) (by omega)
    have e2 := Grid.pixel_tabulate h w (fun y x =>
      if (x : Int) - dx ≥ (w : Int) ∨ (x : Int) - dx < 0 then empty
      else if (y : Int) - dy ≥ (h : Int) ∨ (y : Int) - dy < 0 then empty
      else (g.getD ((y : Int) - dy).toNat []).getD ((x : Int) - dx).toNat empty)
      ((y : Int) - -dy).toNat ((x : Int) - -dx).toNat (by omega) (by omega)
    rw [Int.toNat_of_nonneg (by omega), Int.toNat_of_nonneg (by omega), e1] at e2
    rw [Option.some.inj e2]
    beta_reduce
    have n3 : ¬ ((((x : Int) - -dx).toNat : Int) - dx ≥ (w : Int) ∨
        (((x : Int) - -dx).toNat : Int) - dx < 0) := by omega
    have n4 : ¬ ((((y : Int) - -dy).toNat : Int) - dy ≥ (h : Int) ∨
        (((y : Int) - -dy).toNat : Int) - dy < 0) := by omega
    rw [if_neg n3, if_neg n4, hsx, hsy]
    have ex : (x : Int) + dx - dx = (x : Int) := by omega
    have ey : (y : Int) + dy - dy = (y : Int) := by omega
    rw [ex, ey, Grid.pixel_of_isRect g h w hrect _ _ (by omega) (by omega) (by omega) (by omega)]
  · rw [if_neg c]
    by_cases n1 : (x : Int) - -dx ≥ (w : Int) ∨ (x : Int) - -dx < 0
    · rw [if_pos n1]
      rfl
    · have n2 : (y : Int) - -dy ≥ (h : Int) ∨ (y : Int) - -dy < 0 := by omega
      rw [if_neg n1, if_pos n2]
      rfl

/-- Witness of `translate_back_and_forth` on the 5 x 10 grid `basic`, translated
by `(1, 1)` and back. -/
theorem translate_back_and_forth_witness :
    ∃ g1 g2 : Grid, Translate.MTransform 1 1 basic = some g1 ∧
      Translate.MTransform (-1) (-1) g1 = some g2 ∧ g2.IsRect 5 10 ∧
      ∀ x y : Nat, x < 10 → y < 5 →
        g2.pixel (y : Int) (x : Int) =
          if 0 ≤ (x : Int) + 1 ∧ (x : Int) + 1 < ((10 : Nat) : Int) ∧
              0 ≤ (y : Int) + 1 ∧ (y : Int) + 1 < ((5 : Nat) : Int)
          then basic.pixel (y : Int) (x : Int) else some ⟨0, 0, 0, 0⟩ :=
  translate_back_and_forth basic 5 10 ⟨rfl, by decide⟩ (by decide) 1 1

/-! ## The two folds and the chains without rotation -/

/-- The fold written inline in `Transformer.Apply` (lines 42-49) is the fold of
`composeOps`, from any accumulator. -/
theorem inline_fold_eq (src : Image) (ops : List Affline) :
    ∀ m0 : Aff3,
      ops.foldl (fun m op =>
        (⟨m.m0 * (op.Aff3 src).m0 + m.m1 * m.m3, m.m0 * (op.Aff3 src).m1 + m.m1 * (op.Aff3 src).m4,
          m.m2 + m.m0 * (op.Aff3 src).m2 + m.m1 * (op.Aff3 src).m5,
          m.m3 * (op.Aff3 src).m0 + m.m4 * (op.Aff3 src).m3,
          m.m3 * (op.Aff3 src).m1 + m.m4 * (op.Aff3 src).m4,
          m.m5 + m.m3 * (op.Aff3 src).m2 + m.m4 * (op.Aff3 src).m5⟩ : Aff3)) m0 =
      ops.foldl (fun m op => composeStep m (op.Aff3 src)) m0 := by
  induction ops with
  | nil => intro m0; rfl
  | cons op ops ih =>
    intro m0
    simp only [List.foldl_cons]
    rw [ih]
    rfl

/-- The colours `Transformer.Apply` returns are those the sampler draws for the
matrix of `composeOps`. -/
theorem Apply_Pix
    (transform : Rectangle → Aff3 → Image → Rectangle → Int → Int → RGBA)
    (t : Transformer) (src : Image) :
    (Transformer.Apply transform t src).Pix =
      transform src.Bounds (t.composeOps src) src src.Bounds := by
  show transform src.Bounds _ src src.Bounds = _
  rw [inline_fold_eq src t.ops _]
  rfl

/-- C19: for every source image, every chain and every sampler, the image
`Transformer.Apply` returns is the one the sampler draws for the matrix returned
by `Transformer.composeOps`: the matrix folded inline in `Apply` equals, step
for step, the matrix of `composeOps`. -/
theorem Apply_uses_composeOps
    (transform : Rectangle → Aff3 → Image → Rectangle → Int → Int → RGBA)
    (t : Transformer) (src : Image) :
    (Transformer.Apply transform t src).Pix =
        transform src.Bounds (t.composeOps src) src src.Bounds ∧
      t.ops.foldl (fun m op =>
        (⟨m.m0 * (op.Aff3 src).m0 + m.m1 * m.m3, m.m0 * (op.Aff3 src).m1 + m.m1 * (op.Aff3 src).m4,
          m.m2 + m.m0 * (op.Aff3 src).m2 + m.m1 * (op.Aff3 src).m5,
          m.m3 * (op.Aff3 src).m0 + m.m4 * (op.Aff3 src).m3,
          m.m3 * (op.Aff3 src).m1 + m.m4 * (op.Aff3 src).m4,
          m.m5 + m.m3 * (op.Aff3 src).m2 + m.m4 * (op.Aff3 src).m5⟩ : Aff3))
        (⟨1, 0, 0, 0, 1, 0⟩ : Aff3) = t.composeOps src :=
  ⟨Apply_Pix transform t src, inline_fold_eq src t.ops _⟩

/-- C13, refuted as stated: the chain holding one operation with the zero
matrix composes to a matrix of determinant zero, and for every sampler
`Transformer.Apply` returns a destination image: it has the bounds of the 10 x 5
fixture and the colours the sampler draws for the zero matrix. -/
theorem Apply_degenerate_no_error :
    (Transformer.composeOps (NewTransformer.Add (.Other ⟨0, 0, 0, 0, 0, 0⟩)) BasicImage).det = 0 ∧
      ∀ transform : Rectangle → Aff3 → Image → Rectangle → Int → Int → RGBA,
        (Transformer.Apply transform (NewTransformer.Add (.Other ⟨0, 0, 0, 0, 0, 0⟩))
            BasicImage).Bounds = ⟨⟨0, 0⟩, ⟨10, 5⟩⟩ ∧
          (Transformer.Apply transform (NewTransformer.Add (.Other ⟨0, 0, 0, 0, 0, 0⟩))
            BasicImage).Pix =
            transform ⟨⟨0, 0⟩, ⟨10, 5⟩⟩ ⟨0, 0, 0, 0, 0, 0⟩ BasicImage ⟨⟨0, 0⟩, ⟨10, 5⟩⟩ := by
  have hm : Transformer.composeOps (NewTransformer.Add (.Other ⟨0, 0, 0, 0, 0, 0⟩)) BasicImage =
      ⟨0, 0, 0, 0, 0, 0⟩ := by
    simp [Transformer.composeOps, NewTransformer, Transformer.Add, composeStep, Aff3.identity,
      Affline.Aff3]
  refine ⟨by simp [hm, Aff3.det], fun transform => ⟨rfl, ?_⟩⟩
  rw [Apply_Pix, hm]
  rfl

/-- C13, amended: for every chain whose composed matrix has zero determinant
and every sampler, `Transformer.Apply` reports no error: it returns the
destination image, allocated with the bounds of the source, holding the colours
the sampler draws for the composed matrix. -/
theorem Apply_degenerate_returns
    (transform : Rectangle → Aff3 → Image → Rectangle → Int → Int → RGBA)
    (t : Transformer) (src : Image) (hdet : (t.composeOps src).det = 0) :
    (t.composeOps src).det = 0 ∧
      (Transformer.Apply transform t src).Bounds = src.Bounds ∧
      (Transformer.Apply transform t src).Pix =
        transform src.Bounds (t.composeOps src) src src.Bounds :=
  ⟨hdet, rfl, Apply_Pix transform t src⟩

/-- Witness of `Apply_degenerate_returns`: the chain `[ReflectHoriz]` followed
by an operation with the zero matrix, on the fixture, with a sampler that
copies the source pixel at the same position. -/
theorem Apply_degenerate_returns_witness :
    (Transformer.composeOps
        ((NewTransformer.Add .ReflectHoriz).Add (.Other ⟨0, 0, 0, 0, 0, 0⟩)) BasicImage).det = 0 ∧
      (Transformer.Apply (fun _ _ src _ x y => src.At x y)
        ((NewTransformer.Add .ReflectHoriz).Add (.Other ⟨0, 0, 0, 0, 0, 0⟩))
        BasicImage).Bounds = BasicImage.Bounds ∧
      (Transformer.Apply (fun _ _ src _ x y => src.At x y)
        ((NewTransformer.Add .ReflectHoriz).Add (.Other ⟨0, 0, 0, 0, 0, 0⟩))
        BasicImage).Pix =
        (fun (_ : Rectangle) (_ : Aff3) (src : Image) (_ : Rectangle) (x y : Int) => src.At x y)
          BasicImage.Bounds
          (Transformer.composeOps
            ((NewTransformer.Add .ReflectHoriz).Add (.Other ⟨0, 0, 0, 0, 0, 0⟩)) BasicImage)
          BasicImage BasicImage.Bounds :=
  Apply_degenerate_returns (fun _ _ src _ x y => src.At x y)
    ((NewTransformer.Add .ReflectHoriz).Add (.Other ⟨0, 0, 0, 0, 0, 0⟩)) BasicImage
    (by
      simp [Transformer.composeOps, NewTransformer, Transformer.Add, composeStep, Aff3.identity,
        Affline.Aff3, ReflectHoriz.Aff3, Aff3.det])

/-- The operations `Translate`, `ReflectHoriz` and `ReflectVert`. -/
theorem flat_op_matrix (op : Affline) (src : Image)
    (hop : (∃ X Y, op = .Translate X Y) ∨ op = .ReflectHoriz ∨ op = .ReflectVert) :
    (op.Aff3 src).m1 = 0 ∧ (op.Aff3 src).m3 = 0 ∧
      ((op.Aff3 src).m0 = 1 ∨ (op.Aff3 src).m0 = -1) ∧
      ((op.Aff3 src).m4 = 1 ∨ (op.Aff3 src).m4 = -1) := by
  rcases hop with ⟨X, Y, rfl⟩ | rfl | rfl <;>
    simp [Affline.Aff3, Translate.Aff3, ReflectHoriz.Aff3, ReflectVert.Aff3]

/-- A fold step keeps the shape `m1 = m3 = 0`, `m0, m4 = ±1`. -/
theorem composeStep_flat (m om : Aff3)
    (hm : m.m1 = 0 ∧ m.m3 = 0 ∧ (m.m0 = 1 ∨ m.m0 = -1) ∧ (m.m4 = 1 ∨ m.m4 = -1))
    (hom : om.m1 = 0 ∧ om.m3 = 0 ∧ (om.m0 = 1 ∨ om.m0 = -1) ∧ (om.m4 = 1 ∨ om.m4 = -1)) :
    (composeStep m om).m1 = 0 ∧ (composeStep m om).m3 = 0 ∧
      ((composeStep m om).m0 = 1 ∨ (composeStep m om).m0 = -1) ∧
      ((composeStep m om).m4 = 1 ∨ (composeStep m om).m4 = -1) := by
  obtain ⟨h1, h3, h0, h4⟩ := hm
  obtain ⟨o1, o3, o0, o4⟩ := hom
  simp only [composeStep, h1, h3, o1, o3, mul_zero, zero_mul, add_zero, zero_add, true_and]
  constructor
  · rcases h0 with h | h <;> rcases o0 with o | o <;> simp [h, o]
  · rcases h4 with h | h <;> rcases o4 with o | o <;> simp [h, o]

/-- The fold over a chain without rotation, from any accumulator of that shape. -/
theorem foldl_composeStep_flat (src : Image) (ops : List Affline)
    (hops : ∀ op ∈ ops, (∃ X Y, op = .Translate X Y) ∨ op = .ReflectHoriz ∨ op = .ReflectVert) :
    ∀ m : Aff3, (m.m1 = 0 ∧ m.m3 = 0 ∧ (m.m0 = 1 ∨ m.m0 = -1) ∧ (m.m4 = 1 ∨ m.m4 = -1)) →
      ((ops.foldl (fun m op => composeStep m (op.Aff3 src)) m).m1 = 0 ∧
        (ops.foldl (fun m op => composeStep m (op.Aff3 src)) m).m3 = 0 ∧
        ((ops.foldl (fun m op => composeStep m (op.Aff3 src)) m).m0 = 1 ∨
          (ops.foldl (fun m op => composeStep m (op.Aff3 src)) m).m0 = -1) ∧
        ((ops.foldl (fun m op => composeStep m (op.Aff3 src)) m).m4 = 1 ∨
          (ops.foldl (fun m op => composeStep m (op.Aff3 src)) m).m4 = -1)) := by
  induction ops with
  | nil => intro m hm; exact hm
  | cons op ops ih =>
    intro m hm
    simp only [List.foldl_cons]
    exact ih (fun o ho => hops o (List.mem_cons_of_mem op ho)) _
      (composeStep_flat m _ hm (flat_op_matrix op src (hops op (List.mem_cons_self op ops))))

/-- C20: for every source image and every chain made only of `Translate`,
`ReflectHoriz` and `ReflectVert`, the matrix returned by `composeOps` has
`m1 = m3 = 0` and `m0`, `m4` each `1` or `-1`; its determinant is `1` or `-1`,
so it is not zero. -/
theorem composeOps_flat_chain (t : Transformer) (src : Image)
    (hops : ∀ op ∈ t.ops,
      (∃ X Y, op = .Translate X Y) ∨ op = .ReflectHoriz ∨ op = .ReflectVert) :
    (t.composeOps src).m1 = 0 ∧ (t.composeOps src).m3 = 0 ∧
      ((t.composeOps src).m0 = 1 ∨ (t.composeOps src).m0 = -1) ∧
      ((t.composeOps src).m4 = 1 ∨ (t.composeOps src).m4 = -1) ∧
      ((t.composeOps src).det = 1 ∨ (t.composeOps src).det = -1) ∧
      (t.composeOps src).det ≠ 0 := by
  have h := foldl_composeStep_flat src t.ops hops Aff3.identity
    (by simp [Aff3.identity])
  obtain ⟨h1, h3, h0, h4⟩ := h
  have hdet : (t.composeOps src).det = 1 ∨ (t.composeOps src).det = -1 := by
    have e1 : (t.composeOps src).m1 = 0 := h1
    have e0 : (t.composeOps src).m0 = 1 ∨ (t.composeOps src).m0 = -1 := h0
    have e4 : (t.composeOps src).m4 = 1 ∨ (t.composeOps src).m4 = -1 := h4
    simp only [Aff3.det, e1, zero_mul, sub_zero]
    rcases e0 with a | a <;> rcases e4 with b | b <;> simp [a, b]
  refine ⟨h1, h3, h0, h4, hdet, ?_⟩
  rcases hdet with d | d <;> rw [d] <;> norm_num

/-- Witness of `composeOps_flat_chain` on the fixture with the chain
`[Translate{3,-2}, ReflectHoriz, ReflectVert, Translate{1,1}]`. -/
theorem composeOps_flat_chain_witness :
    (Transformer.composeOps
        ⟨[.Translate 3 (-2), .ReflectHoriz, .ReflectVert, .Translate 1 1]⟩ BasicImage).det ≠ 0 :=
  (composeOps_flat_chain ⟨[.Translate 3 (-2), .ReflectHoriz, .ReflectVert, .Translate 1 1]⟩
    BasicImage (by
      intro op hop
      simp only [List.mem_cons, List.mem_singleton, List.not_mem_nil, or_false] at hop
      rcases hop with rfl | rfl | rfl | rfl
      · exact Or.inl ⟨3, -2, rfl⟩
      · exact Or.inr (Or.inl rfl)
      · exact Or.inr (Or.inr rfl)
      · exact Or.inl ⟨1, 1, rfl⟩)).2.2.2.2.2

/-! ## `AffTrans.Rotate90` -/

/-- Go's `count % 2` is positive exactly for the positive odd counts. -/
theorem tmod_two_pos_iff (count : Int) :
    Int.tmod count 2 > 0 ↔ 0 < count ∧ count % 2 = 1 := by
  rcases count with n | n
  · simp only [Int.ofNat_eq_coe, Int.tmod]
    omega
  · have h1 : Int.tmod (Int.negSucc n) 2 = -((n.succ % 2 : Nat) : Int) := rfl
    have h2 : Int.negSucc n = -((n : Int) + 1) := Int.negSucc_eq n
    rw [h1, h2]
    omega

/-- C18, evaluated: `AffTrans.Rotate90(count)` swaps width and height exactly
when `count` is positive and odd. On the 10 x 5 fixture `Rotate90(-1)`, an odd
count, leaves the canvas 10 wide and 5 high, and the destination of `Apply` has
that size; `Rotate90(1)` and `Rotate90(5)` make it 5 wide and 10 high. -/
theorem Rotate90_negative_odd_no_swap :
    (∀ (t : AffTrans) (count : Int),
      ((t.Rotate90 count).width = if 0 < count ∧ count % 2 = 1 then t.height else t.width) ∧
      ((t.Rotate90 count).height = if 0 < count ∧ count % 2 = 1 then t.width else t.height)) ∧
    (-1 : Int) % 2 = 1 ∧
    ((NewAffTrans BasicImage).Rotate90 (-1)).width = 10 ∧
    ((NewAffTrans BasicImage).Rotate90 (-1)).height = 5 ∧
    (∀ transform : Rectangle → Aff3 → Image → Rectangle → Int → Int → RGBA,
      (AffTrans.Apply transform ((NewAffTrans BasicImage).Rotate90 (-1))).Bounds.Size =
        ⟨10, 5⟩) ∧
    ((NewAffTrans BasicImage).Rotate90 1).width = 5 ∧
    ((NewAffTrans BasicImage).Rotate90 1).height = 10 ∧
    ((NewAffTrans BasicImage).Rotate90 5).width = 5 ∧
    ((NewAffTrans BasicImage).Rotate90 5).height = 10 := by
  have hgen : ∀ (t : AffTrans) (count : Int),
      ((t.Rotate90 count).width = if 0 < count ∧ count % 2 = 1 then t.height else t.width) ∧
      ((t.Rotate90 count).height = if 0 < count ∧ count % 2 = 1 then t.width else t.height) := by
    intro t count
    by_cases h : 0 < count ∧ count % 2 = 1
    · have h2 : Int.tmod count 2 > 0 := (tmod_two_pos_iff count).mpr h
      simp [AffTrans.Rotate90, h, h2]
    · have h2 : ¬ Int.tmod count 2 > 0 := fun hc => h ((tmod_two_pos_iff count).mp hc)
      simp [AffTrans.Rotate90, h, h2]
  refine ⟨hgen, by decide, ?_, ?_, ?_, ?_, ?_, ?_, ?_⟩
  · rw [(hgen _ _).1]; decide
  · rw [(hgen _ _).2]; decide
  · intro transform
    show Rectangle.Size (Rect 0 0 ((NewAffTrans BasicImage).Rotate90 (-1)).width
      ((NewAffTrans BasicImage).Rotate90 (-1)).height) = ⟨10, 5⟩
    rw [(hgen _ _).1, (hgen _ _).2]
    decide
  · rw [(hgen _ _).1]; decide
  · rw [(hgen _ _).2]; decide
  · rw [(hgen _ _).1]; decide
  · rw [(hgen _ _).2]; decide

/-! ## `ReflectHoriz.MTransform` and `ReflectVert.MTransform` -/

/-- Two tabulated grids agree when their cells agree inside the grid. -/
theorem Grid.tabulate_congr (h w : Nat) (f f' : Nat → Nat → RGBA)
    (hf : ∀ y x, y < h → x < w → f y x = f' y x) :
    Grid.tabulate h w f = Grid.tabulate h w f' := by
  simp only [Grid.tabulate]
  apply List.map_congr_left
  intro y hy
  apply List.map_congr_left
  intro x hx
  exact hf y x (List.mem_range.mp hy) (List.mem_range.mp hx)

/-- A cell of a tabulated grid, read with defaults. -/
theorem Grid.getD_tabulate (h w : Nat) (f : Nat → Nat → RGBA) (y x : Nat)
    (hy : y < h) (hx : x < w) :
    ((Grid.tabulate h w f).getD y []).getD x empty = f y x := by
  simp [Grid.tabulate, List.getD_eq_getElem?_getD, List.getElem?_range hy,
    List.getElem?_range hx]

/-- A rectangular grid is the tabulation of its own cells. -/
theorem Grid.tabulate_getD (g : Grid) (h w : Nat) (hrect : g.IsRect h w) :
    Grid.tabulate h w (fun y x => (g.getD y []).getD x empty) = g := by
  obtain ⟨hl, hr⟩ := hrect
  apply List.ext_getElem
  · simp [Grid.tabulate, hl]
  · intro y h1 h2
    have hrow : (g[y]).length = w := hr _ (List.getElem_mem h2)
    simp only [Grid.tabulate, List.getElem_map, List.getElem_range]
    apply List.ext_getElem
    · simp [hrow]
    · intro x hx1 hx2
      simp [List.getD_eq_getElem?_getD, List.getElem?_eq_getElem h2,
        List.getElem?_eq_getElem hx2]

/-- For a non-empty rectangular grid, `ReflectHoriz.MTransform` returns the
grid of the same shape whose cell `(y, x)` is the source cell `(y, w-1-x)`. -/
theorem ReflectHoriz.MTransform_mirror (g : Grid) (h w : Nat) (hrect : g.IsRect h w)
    (hpos : 0 < h) :
    ReflectHoriz.MTransform g = some (Grid.tabulate h w (fun y x =>
      (g.getD y []).getD (w - 1 - x) empty)) := by
  have h0 : 0 < g.length := by rw [hrect.1]; exact hpos
  have hrow0 : (g[0]).length = w := hrect.2 _ (List.getElem_mem h0)
  simp only [ReflectHoriz.MTransform, List.getElem?_eq_getElem h0, Option.bind_eq_bind,
    Option.some_bind, hrow0, hrect.1, makeSlice_natCast]
  rw [Grid.tabulate]
  apply outerLoop
  intro y hy g1 hg1
  have hlen : y < g1.length := by
    rw [hg1]
    simp
    omega
  refine fillRow y w _ _ ?_ g1 hlen
  intro x hx g2
  rw [Grid.pixel_of_isRect g h w hrect _ _ (by omega) (by omega) (by omega) (by omega)]
  have e1 : ((w : Int) - 1 - (x : Int)).toNat = w - 1 - x := by omega
  have e2 : ((y : Nat) : Int).toNat = y := by omega
  rw [e1, e2]
  rfl

/-- For a non-empty rectangular grid, `ReflectVert.MTransform` returns the
grid of the same shape whose cell `(y, x)` is the source cell `(h-1-y, x)`. -/
theorem ReflectVert.MTransform_flip (g : Grid) (h w : Nat) (hrect : g.IsRect h w)
    (hpos : 0 < h) :
    ReflectVert.MTransform g = some (Grid.tabulate h w (fun y x =>
      (g.getD (h - 1 - y) []).getD x empty)) := by
  have h0 : 0 < g.length := by rw [hrect.1]; exact hpos
  have hrow0 : (g[0]).length = w := hrect.2 _ (List.getElem_mem h0)
  simp only [ReflectVert.MTransform, List.getElem?_eq_getElem h0, Option.bind_eq_bind,
    Option.some_bind, hrow0, hrect.1, makeSlice_natCast]
  rw [Grid.tabulate]
  apply outerLoop
  intro y hy g1 hg1
  have hlen : y < g1.length := by
    rw [hg1]
    simp
    omega
  refine fillRow y w _ _ ?_ g1 hlen
  intro x hx g2
  rw [Grid.pixel_of_isRect g h w hrect _ _ (by omega) (by omega) (by omega) (by omega)]
  have e1 : ((h : Int) - 1 - (y : Int)).toNat = h - 1 - y := by omega
  have e2 : ((x : Nat) : Int).toNat = x := by omega
  rw [e1, e2]
  rfl

/-- C17: for every non-empty pixel grid `g` of `h` rows that all have length
`w`, `ReflectHoriz.MTransform` and `ReflectVert.MTransform` each return a grid
of the same height and width (no read or write is out of range), holding the
mirrored cells, and applying either one twice returns `g`. -/
theorem reflect_MTransform_involution (g : Grid) (h w : Nat) (hrect : g.IsRect h w)
    (hpos : 0 < h) :
    (∃ g1 : Grid, ReflectHoriz.MTransform g = some g1 ∧ g1.IsRect h w ∧
      (∀ x y : Nat, x < w → y < h →
        g1.pixel (y : Int) (x : Int) = g.pixel (y : Int) ((w : Int) - 1 - (x : Int))) ∧
      ReflectHoriz.MTransform g1 = some g) ∧
    (∃ g1 : Grid, ReflectVert.MTransform g = some g1 ∧ g1.IsRect h w ∧
      (∀ x y : Nat, x < w → y < h →
        g1.pixel (y : Int) (x : Int) = g.pixel ((h : Int) - 1 - (y : Int)) (x : Int)) ∧
      ReflectVert.MTransform g1 = some g) := by
  constructor
  · refine ⟨_, ReflectHoriz.MTransform_mirror g h w hrect hpos, Grid.tabulate_isRect _ _ _, ?_, ?_⟩
    · intro x y hx hy
      rw [Grid.pixel_tabulate h w _ y x hy hx,
        Grid.pixel_of_isRect g h w hrect _ _ (by omega) (by omega) (by omega) (by omega)]
      have e1 : ((w : Int) - 1 - (x : Int)).toNat = w - 1 - x := by omega
      have e2 : ((y : Nat) : Int).toNat = y := by omega
      rw [e1, e2]
    · rw [ReflectHoriz.MTransform_mirror _ h w (Grid.tabulate_isRect _ _ _) hpos]
      have e : Grid.tabulate h w (fun y x =>
          ((Grid.tabulate h w (fun y x => (g.getD y []).getD (w - 1 - x) empty)).getD y []).getD
            (w - 1 - x) empty) =
          Grid.tabulate h w (fun y x => (g.getD y []).getD x empty) := by
        apply Grid.tabulate_congr
        intro y x hy hx
        rw [Grid.getD_tabulate h w _ y (w - 1 - x) hy (by omega)]
        have e3 : w - 1 - (w - 1 - x) = x := by omega
        rw [e3]
      rw [e, Grid.tabulate_getD g h w hrect]
  · refine ⟨_, ReflectVert.MTransform_flip g h w hrect hpos, Grid.tabulate_isRect _ _ _, ?_, ?_⟩
    · intro x y hx hy
      rw [Grid.pixel_tabulate h w _ y x hy hx,
        Grid.pixel_of_isRect g h w hrect _ _ (by omega) (by omega) (by omega) (by omega)]
      have e1 : ((h : Int) - 1 - (y : Int)).toNat = h - 1 - y := by omega
      have e2 : ((x : Nat) : Int).toNat = x := by omega
      rw [e1, e2]
    · rw [ReflectVert.MTransform_flip _ h w (Grid.tabulate_isRect _ _ _) hpos]
      have e : Grid.tabulate h w (fun y x =>
          ((Grid.tabulate h w (fun y x => (g.getD (h - 1 - y) []).getD x empty)).getD
            (h - 1 - y) []).getD x empty) =
          Grid.tabulate h w (fun y x => (g.getD y []).getD x empty) := by
        apply Grid.tabulate_congr
        intro y x hy hx
        rw [Grid.getD_tabulate h w _ (h - 1 - y) x (by omega) hx]
        have e3 : h - 1 - (h - 1 - y) = y := by omega
        rw [e3]
      rw [e, Grid.tabulate_getD g h w hrect]

/-- Witness of `reflect_MTransform_involution` on the 5 x 10 grid `basic`. -/
theorem reflect_MTransform_involution_witness :
    (∃ g1 : Grid, ReflectHoriz.MTransform basic = some g1 ∧ g1.IsRect 5 10 ∧
      (∀ x y : Nat, x < 10 → y < 5 →
        g1.pixel (y : Int) (x : Int) =
          basic.pixel (y : Int) (((10 : Nat) : Int) - 1 - (x : Int))) ∧
      ReflectHoriz.MTransform g1 = some basic) ∧
    (∃ g1 : Grid, ReflectVert.MTransform basic = some g1 ∧ g1.IsRect 5 10 ∧
      (∀ x y : Nat, x < 10 → y < 5 →
        g1.pixel (y : Int) (x : Int) =
          basic.pixel (((5 : Nat) : Int) - 1 - (y : Int)) (x : Int)) ∧
      ReflectVert.MTransform g1 = some basic) :=
  reflect_MTransform_involution basic 5 10 ⟨rfl, by decide⟩ (by decide)

/-! ## The forward remap and the rows not yet allocated -/

/-- The remap is the fold of `remapRow`, which folds `remapStep`. -/
theorem remap_eq (m : Aff3) (pixels : Grid) (width height : Int) :
    remap m pixels width height =
      (makeSlice height ([] : List RGBA)).bind fun result =>
        (List.range result.length).foldlM (remapRow m pixels width height) result := rfl

/-- A loop keeps an invariant that each of its iterations keeps. -/
theorem foldlM_preserves {σ α : Type} (Inv : σ → Prop) (f : σ → α → Option σ)
    (hf : ∀ s a s', Inv s → f s a = some s' → Inv s') (l : List α) :
    ∀ s s', Inv s → l.foldlM f s = some s' → Inv s' := by
  induction l with
  | nil =>
    intro s s' hs h
    simp only [List.foldlM_nil, Option.pure_def, Option.some.injEq] at h
    exact h ▸ hs
  | cons a l ih =>
    intro s s' hs h
    rw [List.foldlM_cons] at h
    cases hfa : f s a with
    | none => rw [hfa] at h; exact absurd h (by simp)
    | some s1 =>
      rw [hfa] at h
      exact ih s1 s' (hf s a s1 hs hfa) h

/-- A loop panics when one of its iterations panics in every state that
satisfies an invariant of the loop. -/
theorem foldlM_none_of_mem {σ α : Type} (Inv : σ → Prop) (f : σ → α → Option σ)
    (hf : ∀ s a s', Inv s → f s a = some s' → Inv s') (a : α)
    (hfail : ∀ s, Inv s → f s a = none) (l : List α) (ha : a ∈ l) :
    ∀ s, Inv s → l.foldlM f s = none := by
  induction l with
  | nil => exact absurd ha (List.not_mem_nil a)
  | cons b l ih =>
    intro s hs
    rw [List.foldlM_cons]
    cases hfb : f s b with
    | none => rfl
    | some s1 =>
      have hs1 : Inv s1 := hf s b s1 hs hfb
      rcases List.mem_cons.mp ha with hab | hal
      · rw [← hab, hfail s hs] at hfb
        exact absurd hfb (by simp)
      · exact ih hal s1 hs1

/-- A successful write keeps the rows below the scanned one `nil`. -/
theorem Grid.setPixel_scanning (g g' : Grid) (H W y : Nat) (r cx : Int) (c : RGBA)
    (hg : g.Scanning H W y) (h : g.setPixel r cx c = some g') : g'.Scanning H W y := by
  obtain ⟨hlen, hnil, r0, hr0, hr0len⟩ := hg
  unfold Grid.setPixel at h
  split at h
  · cases hrow : g[r.toNat]? with
    | none => rw [hrow] at h; exact absurd h (by simp)
    | some row =>
      rw [hrow] at h
      simp only [Option.some_bind] at h
      split at h
      · rename_i hcx
        have hg' : g' = g.set r.toNat (row.set cx.toNat c) := (Option.some.inj h).symm
        subst hg'
        refine ⟨by simpa using hlen, ?_, ?_⟩
        · intro j hj1 hj2
          have hne : r.toNat ≠ j := by
            intro e
            rw [e, hnil j hj1 hj2] at hrow
            have : row = [] := (Option.some.inj hrow).symm
            rw [this] at hcx
            exact absurd hcx (by simp)
          rw [List.getElem?_set_ne hne]
          exact hnil j hj1 hj2
        · by_cases h0 : r.toNat = 0
          · have hlt : 0 < g.length := (List.getElem?_eq_some.mp hr0).1
            rw [h0] at hrow
            rw [hr0] at hrow
            have e : row = r0 := (Option.some.inj hrow).symm
            refine ⟨row.set cx.toNat c, ?_, by simp [e, hr0len]⟩
            rw [h0]
            exact List.getElem?_set_self hlt
          · exact ⟨r0, by rw [List.getElem?_set_ne h0]; exact hr0, hr0len⟩
      · exact absurd h (by simp)
  · exact absurd h (by simp)

/-- An inner iteration that succeeds keeps the rows below the scanned one
`nil`. -/
theorem remapStep_scanning (m : Aff3) (pixels : Grid) (width height : Int) (H W y x : Nat)
    (g g' : Grid) (hg : g.Scanning H W y)
    (h : remapStep m pixels width height y g x = some g') : g'.Scanning H W y := by
  unfold remapStep at h
  simp only at h
  split at h
  · cases hpix : pixels.pixel (y : Int) (x : Int) with
    | none => rw [hpix] at h; exact absurd h (by simp)
    | some c =>
      rw [hpix] at h
      exact Grid.setPixel_scanning g g' H W y _ _ c hg h
  · exact (Option.some.inj h) ▸ hg

/-- An in-canvas coordinate truncates to a row of the canvas. -/
theorem truncate_lt (v : ℚ) (H : Int) (h0 : v ≥ 0) (h1 : v < (H : ℚ)) : truncate v < H := by
  unfold truncate
  rw [if_pos h0]
  exact Int.floor_lt.mpr h1

/-- The inner iteration for a source pixel whose mapped coordinate lies in the
canvas, in a row below the scanned one, panics. -/
theorem remapStep_panics (m : Aff3) (pixels : Grid) (H W y x : Nat) (g : Grid)
    (hin : inCanvas m (W : Int) (H : Int) x y)
    (hlow : (y : Int) < truncate (m.apply ((x : ℚ), (y : ℚ))).2)
    (hg : g.Scanning H W y) :
    remapStep m pixels (W : Int) (H : Int) y g x = none := by
  obtain ⟨hlen, hnil, _⟩ := hg
  have hin' := hin
  unfold inCanvas Aff3.apply at hin'
  simp only at hin'
  have hlow' : (y : Int) <
      truncate (m.m3 * (x : ℚ) + m.m4 * (y : ℚ) + m.m5 * 1) := hlow
  have hlt := truncate_lt _ (H : Int) hin'.2.2.1 hin'.2.2.2
  unfold remapStep
  simp only
  rw [if_pos hin']
  cases hpix : pixels.pixel (y : Int) (x : Int) with
  | none => rfl
  | some c =>
    simp only [Option.bind_eq_bind, Option.some_bind]
    have hrow : g[(truncate (m.m3 * (x : ℚ) + m.m4 * (y : ℚ) + m.m5 * 1)).toNat]? = some [] :=
      hnil _ (by omega) (by omega)
    unfold Grid.setPixel
    split
    · rw [hrow]
      simp
    · rfl

/-- An outer iteration that succeeds leaves the rows after it `nil`. -/
theorem remapRow_pending (m : Aff3) (pixels : Grid) (H W y : Nat) (g g' : Grid)
    (hy : y < H) (hg : g.Pending H W y)
    (h : remapRow m pixels (W : Int) (H : Int) g y = some g') : g'.Pending H W (y + 1) := by
  obtain ⟨hlen, hnil, hr0⟩ := hg
  have hy' : (y : Int) < (g.length : Int) := by rw [hlen]; exact_mod_cast hy
  have hyl : y < g.length := by rw [hlen]; exact hy
  have hscan : Grid.Scanning (g.set y (List.replicate W (⟨0, 0, 0, 0⟩ : RGBA))) H W y := by
    refine ⟨by simpa using hlen, ?_, ?_⟩
    · intro j hj1 hj2
      rw [List.getElem?_set_ne (by omega)]
      exact hnil j (by omega) hj2
    · by_cases h0 : y = 0
      · subst h0
        exact ⟨_, List.getElem?_set_self hyl, by simp⟩
      · obtain ⟨r0, e0, l0⟩ := hr0 (Nat.pos_of_ne_zero h0)
        exact ⟨r0, by rw [List.getElem?_set_ne h0]; exact e0, l0⟩
  obtain ⟨r0, e0, l0⟩ := hscan.2.2
  unfold remapRow at h
  simp only [makeSlice_natCast, Grid.setRow, Int.natCast_nonneg, hy', and_self, if_true,
    Int.toNat_ofNat, Option.bind_eq_bind, Option.some_bind, e0, l0] at h
  have hres := foldlM_preserves (fun s => Grid.Scanning s H W y)
    (remapStep m pixels (W : Int) (H : Int) y)
    (fun s a s' hs hsa => remapStep_scanning m pixels _ _ H W y a s s' hs hsa)
    (List.range W) _ g' hscan h
  exact ⟨hres.1, fun j hj1 hj2 => hres.2.1 j (by omega) hj2, fun _ => hres.2.2⟩

/-- An outer iteration panics when its row holds a source pixel whose mapped
coordinate lies in the canvas in a row below. -/
theorem remapRow_panics (m : Aff3) (pixels : Grid) (H W y x : Nat) (g : Grid)
    (hy : y < H) (hx : x < W) (hin : inCanvas m (W : Int) (H : Int) x y)
    (hlow : (y : Int) < truncate (m.apply ((x : ℚ), (y : ℚ))).2)
    (hg : g.Pending H W y) :
    remapRow m pixels (W : Int) (H : Int) g y = none := by
  obtain ⟨hlen, hnil, hr0⟩ := hg
  have hy' : (y : Int) < (g.length : Int) := by rw [hlen]; exact_mod_cast hy
  have hyl : y < g.length := by rw [hlen]; exact hy
  have hscan : Grid.Scanning (g.set y (List.replicate W (⟨0, 0, 0, 0⟩ : RGBA))) H W y := by
    refine ⟨by simpa using hlen, ?_, ?_⟩
    · intro j hj1 hj2
      rw [List.getElem?_set_ne (by omega)]
      exact hnil j (by omega) hj2
    · by_cases h0 : y = 0
      · subst h0
        exact ⟨_, List.getElem?_set_self hyl, by simp⟩
      · obtain ⟨r0, e0, l0⟩ := hr0 (Nat.pos_of_ne_zero h0)
        exact ⟨r0, by rw [List.getElem?_set_ne h0]; exact e0, l0⟩
  obtain ⟨r0, e0, l0⟩ := hscan.2.2
  unfold remapRow
  simp only [makeSlice_natCast, Grid.setRow, Int.natCast_nonneg, hy', and_self, if_true,
    Int.toNat_ofNat, Option.bind_eq_bind, Option.some_bind, e0, l0]
  exact foldlM_none_of_mem (fun s => Grid.Scanning s H W y)
    (remapStep m pixels (W : Int) (H : Int) y)
    (fun s a s' hs hsa => remapStep_scanning m pixels _ _ H W y a s s' hs hsa) x
    (fun s hs => remapStep_panics m pixels H W y x s hin hlow hs)
    (List.range W) (List.mem_range.mpr hx) _ hscan

/-- The outer loop up to row `k` either panics or leaves the rows from `k` on
`nil`. -/
theorem remap_rows_upto (m : Aff3) (pixels : Grid) (H W : Nat) :
    ∀ k, k ≤ H →
      (List.range k).foldlM (remapRow m pixels (W : Int) (H : Int)) (List.replicate H []) = none ∨
      ∃ g, (List.range k).foldlM (remapRow m pixels (W : Int) (H : Int))
          (List.replicate H []) = some g ∧ g.Pending H W k := by
  intro k
  induction k with
  | zero =>
    intro _
    refine Or.inr ⟨_, rfl, by simp, ?_, fun h => absurd h (by omega)⟩
    intro j _ hj
    simp [List.getElem?_replicate, hj]
  | succ k ih =>
    intro hk
    rw [List.range_succ, List.foldlM_append]
    rcases ih (Nat.le_of_lt hk) with hnone | ⟨g, hsome, hpend⟩
    · left
      rw [hnone]
      rfl
    · rw [hsome]
      simp only [Option.bind_eq_bind, Option.some_bind, List.foldlM_cons, List.foldlM_nil,
        bind_pure]
      cases hrow : remapRow m pixels (W : Int) (H : Int) g k with
      | none => exact Or.inl rfl
      | some g' => exact Or.inr ⟨g', rfl, remapRow_pending m pixels H W k g g' hk hpend hrow⟩

/-- The forward remap panics whenever some source pixel `(x, y)` is mapped
into the canvas at a row below `y`: that row of the destination is allocated
only when the scan reaches it. -/
theorem remap_panics (m : Aff3) (pixels : Grid) (H W x y : Nat)
    (hy : y < H) (hx : x < W) (hin : inCanvas m (W : Int) (H : Int) x y)
    (hlow : (y : Int) < truncate (m.apply ((x : ℚ), (y : ℚ))).2) :
    remap m pixels (W : Int) (H : Int) = none := by
  rw [remap_eq, makeSlice_natCast]
  simp only [Option.some_bind, List.length_replicate]
  have hH : H = (y + 1) + (H - (y + 1)) := by omega
  rw [hH, List.range_add, List.foldlM_append, ← hH, List.range_succ, List.foldlM_append]
  rcases remap_rows_upto m pixels H W y (Nat.le_of_lt hy) with hnone | ⟨g, hsome, hpend⟩
  · rw [hnone]
    rfl
  · rw [hsome]
    simp only [Option.bind_eq_bind, Option.some_bind, List.foldlM_cons, List.foldlM_nil,
      bind_pure, remapRow_panics m pixels H W y x g hy hx hin hlow hpend, Option.none_bind]

/-- The forward remap of the fixture is the remap of `basic` on a 10 x 5
canvas. -/
theorem Aff3_BasicImage (t : Transformer) :
    Transformer.Aff3 t BasicImage =
      remap (t.composeOps BasicImage) basic ((10 : Nat) : Int) ((5 : Nat) : Int) := by
  simp only [Transformer.Aff3, getColorMatrix_BasicImage, Option.bind_eq_bind, Option.some_bind]
  rfl

/-- C11, evaluated on the fixture: the forward remap of the 10 x 5 image through
the chain `[Translate{0, 1}]` returns no grid. Source pixel `(0, 0)` maps to
`(0, 1)`, inside the canvas, and the write to `result[1][0]` comes while only
row 0 of `result` is allocated: the remap panics. -/
theorem translate_down_remap_panics :
    Transformer.composeOps (NewTransformer.Add (.Translate 0 1)) BasicImage =
        ⟨1, 0, 0, 0, 1, 1⟩ ∧
      inCanvas ⟨1, 0, 0, 0, 1, 1⟩ ((10 : Nat) : Int) ((5 : Nat) : Int) 0 0 ∧
      truncate ((⟨1, 0, 0, 0, 1, 1⟩ : Aff3).apply (((0 : Nat) : ℚ), ((0 : Nat) : ℚ))).2 = 1 ∧
      Transformer.Aff3 (NewTransformer.Add (.Translate 0 1)) BasicImage = none := by
  have hm : Transformer.composeOps (NewTransformer.Add (.Translate 0 1)) BasicImage =
      ⟨1, 0, 0, 0, 1, 1⟩ := by
    simp [Transformer.composeOps, NewTransformer, Transformer.Add, composeStep, Aff3.identity,
      Affline.Aff3, Translate.Aff3]
  have hin : inCanvas ⟨1, 0, 0, 0, 1, 1⟩ ((10 : Nat) : Int) ((5 : Nat) : Int) 0 0 := by
    norm_num [inCanvas, Aff3.apply]
  have htr : truncate ((⟨1, 0, 0, 0, 1, 1⟩ : Aff3).apply
      (((0 : Nat) : ℚ), ((0 : Nat) : ℚ))).2 = 1 := by
    norm_num [Aff3.apply, truncate]
  refine ⟨hm, hin, htr, ?_⟩
  rw [Aff3_BasicImage, hm]
  exact remap_panics _ basic 5 10 0 0 (by decide) (by decide) hin (by rw [htr]; decide)

/-- C14, evaluated on the fixture: the forward remap of the 10 x 5 image through
the chain `[ReflectVert]` indexes the destination out of range and returns no
grid. Source pixel `(0, 1)` maps to `(0, 4)`, inside the canvas, and
`result[4]` is still `nil` when row 1 is scanned. -/
theorem reflectVert_remap_panics :
    Transformer.composeOps (NewTransformer.Add .ReflectVert) BasicImage =
        ⟨1, 0, 0, 0, -1, 5⟩ ∧
      inCanvas ⟨1, 0, 0, 0, -1, 5⟩ ((10 : Nat) : Int) ((5 : Nat) : Int) 0 1 ∧
      truncate ((⟨1, 0, 0, 0, -1, 5⟩ : Aff3).apply (((0 : Nat) : ℚ), ((1 : Nat) : ℚ))).2 = 4 ∧
      Transformer.Aff3 (NewTransformer.Add .ReflectVert) BasicImage = none := by
  have hm : Transformer.composeOps (NewTransformer.Add .ReflectVert) BasicImage =
      ⟨1, 0, 0, 0, -1, 5⟩ := by
    simp [Transformer.composeOps, NewTransformer, Transformer.Add, composeStep, Aff3.identity,
      Affline.Aff3, ReflectVert.Aff3, Image.Bounds, Rectangle.Size, BasicImage]
  have hin : inCanvas ⟨1, 0, 0, 0, -1, 5⟩ ((10 : Nat) : Int) ((5 : Nat) : Int) 0 1 := by
    norm_num [inCanvas, Aff3.apply]
  have htr : truncate ((⟨1, 0, 0, 0, -1, 5⟩ : Aff3).apply
      (((0 : Nat) : ℚ), ((1 : Nat) : ℚ))).2 = 4 := by
    norm_num [Aff3.apply, truncate]
  refine ⟨hm, hin, htr, ?_⟩
  rw [Aff3_BasicImage, hm]
  exact remap_panics _ basic 5 10 0 1 (by decide) (by decide) hin (by rw [htr]; decide)

/-- C15, evaluated on the input of `TestTranslate`: for the chain
`[Translate{1, 1}]` on the 10 x 5 fixture `Transformer.Aff3` returns no grid
(source pixel `(0, 0)` maps to `(1, 1)` and `result[1]` is still `nil`), while
`Translate{1, 1}.MTransform` of the pixel grid returns the translated 5 x 10
grid. -/
theorem translate_remap_ne_MTransform :
    Transformer.Aff3 (NewTransformer.Add (.Translate 1 1)) BasicImage = none ∧
      (∃ g : Grid, Translate.MTransform 1 1 basic = some g ∧ g.IsRect 5 10 ∧
        g.pixel 2 3 = some R) ∧
      Transformer.Aff3 (NewTransformer.Add (.Translate 1 1)) BasicImage ≠
        Translate.MTransform 1 1 basic := by
  have hm : Transformer.composeOps (NewTransformer.Add (.Translate 1 1)) BasicImage =
      ⟨1, 0, 1, 0, 1, 1⟩ := by
    simp [Transformer.composeOps, NewTransformer, Transformer.Add, composeStep, Aff3.identity,
      Affline.Aff3, Translate.Aff3]
  have hin : inCanvas ⟨1, 0, 1, 0, 1, 1⟩ ((10 : Nat) : Int) ((5 : Nat) : Int) 0 0 := by
    norm_num [inCanvas, Aff3.apply]
  have htr : truncate ((⟨1, 0, 1, 0, 1, 1⟩ : Aff3).apply
      (((0 : Nat) : ℚ), ((0 : Nat) : ℚ))).2 = 1 := by
    norm_num [Aff3.apply, truncate]
  have hnone : Transformer.Aff3 (NewTransformer.Add (.Translate 1 1)) BasicImage = none := by
    rw [Aff3_BasicImage, hm]
    exact remap_panics _ basic 5 10 0 0 (by decide) (by decide) hin (by rw [htr]; decide)
  have hrect : basic.IsRect 5 10 := ⟨rfl, by decide⟩
  have hmt := Translate.MTransform_eq 1 1 basic 5 10 hrect (by decide)
  refine ⟨hnone, ⟨_, hmt, Grid.tabulate_isRect _ _ _, ?_⟩, ?_⟩
  · have := Grid.pixel_tabulate 5 10 (fun y x =>
      if (x : Int) - 1 ≥ ((10 : Nat) : Int) ∨ (x : Int) - 1 < 0 then empty
      else if (y : Int) - 1 ≥ ((5 : Nat) : Int) ∨ (y : Int) - 1 < 0 then empty
      else (basic.getD ((y : Int) - 1).toNat []).getD ((x : Int) - 1).toNat empty) 2 3
      (by decide) (by decide)
    rw [show ((2 : Nat) : Int) = 2 from rfl, show ((3 : Nat) : Int) = 3 from rfl] at this
    rw [this]
    decide
  · rw [hnone, hmt]
    simp

/-! ## The test of the forward remap -/

/-- Outside the canvas the inner iteration leaves the destination as it is. -/
theorem remapStep_skip (m : Aff3) (pixels : Grid) (width height : Int) (y x : Nat) (g : Grid)
    (hout : ¬ inCanvas m width height x y) :
    remapStep m pixels width height y g x = some g := by
  unfold inCanvas Aff3.apply at hout
  unfold remapStep
  simp only at hout ⊢
  rw [if_neg hout]

/-- Inside the canvas the inner iteration reads the source pixel and writes it
at the truncated coordinate. -/
theorem remapStep_write (m : Aff3) (pixels : Grid) (width height : Int) (y x : Nat) (g : Grid)
    (hin : inCanvas m width height x y) :
    remapStep m pixels width height y g x =
      (pixels.pixel (y : Int) (x : Int)).bind fun c =>
        g.setPixel (truncate (m.apply ((x : ℚ), (y : ℚ))).2)
          (truncate (m.apply ((x : ℚ), (y : ℚ))).1) c := by
  have hin' := hin
  unfold inCanvas Aff3.apply at hin'
  unfold remapStep Aff3.apply
  simp only at hin' ⊢
  rw [if_pos hin']
  rfl

/-- The forward remap of a grid of one row of two pixels: two inner
iterations on the row `[z, z]`. -/
theorem remap_one_row (m : Aff3) (p0 p1 : RGBA) :
    remap m [[p0, p1]] ((2 : Nat) : Int) ((1 : Nat) : Int) =
      (remapStep m [[p0, p1]] ((2 : Nat) : Int) ((1 : Nat) : Int) 0 [[z, z]] 0).bind fun g =>
        remapStep m [[p0, p1]] ((2 : Nat) : Int) ((1 : Nat) : Int) 0 g 1 := by
  rw [remap_eq, makeSlice_natCast]
  simp only [Option.some_bind, List.length_replicate]
  rw [show List.range 1 = [0] from rfl]
  have hrow : Grid.setRow (List.replicate 1 []) ((0 : Nat) : Int)
      (List.replicate 2 (⟨0, 0, 0, 0⟩ : RGBA)) = some [[z, z]] := by decide
  simp only [List.foldlM_cons, List.foldlM_nil, remapRow, makeSlice_natCast, hrow,
    Option.bind_eq_bind, Option.some_bind, List.getElem?_cons_zero, List.length_cons,
    List.length_nil, bind_pure]
  rw [show List.range (0 + 1 + 1) = [0, 1] from rfl]
  simp only [List.foldlM_cons, List.foldlM_nil, Option.bind_eq_bind, bind_pure]

/-- The forward remap of the 2 x 1 image is the remap of `[[R, G]]` on a 2 x 1
canvas. -/
theorem Aff3_WideImage (t : Transformer) :
    Transformer.Aff3 t WideImage =
      remap (t.composeOps WideImage) [[R, G]] ((2 : Nat) : Int) ((1 : Nat) : Int) := by
  simp only [Transformer.Aff3, getColorMatrix_WideImage, Option.bind_eq_bind, Option.some_bind]
  rfl

/-- C12, refuted as stated: with the matrix `{2, 0, -1/2, 0, 1, 0}`, added to
the chain as an operation of its own, source pixel `(0, 0)` of the 2 x 1 image
`[R, G]` maps to `(-1/2, 0)`, which truncates toward zero to `(0, 0)`, inside
the 2 x 1 canvas; the remap discards it: the grid returned is `[[z, G]]`, whose
cell `(0, 0)` is transparent, not `R`. -/
theorem remap_discards_truncated_inside :
    truncate ((⟨2, 0, -1 / 2, 0, 1, 0⟩ : Aff3).apply (((0 : Nat) : ℚ), ((0 : Nat) : ℚ))).1 = 0 ∧
      truncate ((⟨2, 0, -1 / 2, 0, 1, 0⟩ : Aff3).apply (((0 : Nat) : ℚ), ((0 : Nat) : ℚ))).2 = 0 ∧
      getColorMatrix WideImage = some [[R, G]] ∧
      Transformer.Aff3 (NewTransformer.Add (.Other ⟨2, 0, -1 / 2, 0, 1, 0⟩)) WideImage =
        some [[z, G]] := by
  have hm : Transformer.composeOps (NewTransformer.Add (.Other ⟨2, 0, -1 / 2, 0, 1, 0⟩))
      WideImage = ⟨2, 0, -1 / 2, 0, 1, 0⟩ := by
    simp [Transformer.composeOps, NewTransformer, Transformer.Add, composeStep, Aff3.identity,
      Affline.Aff3]
  have hout : ¬ inCanvas ⟨2, 0, -1 / 2, 0, 1, 0⟩ ((2 : Nat) : Int) ((1 : Nat) : Int) 0 0 := by
    norm_num [inCanvas, Aff3.apply]
  have hin : inCanvas ⟨2, 0, -1 / 2, 0, 1, 0⟩ ((2 : Nat) : Int) ((1 : Nat) : Int) 1 0 := by
    norm_num [inCanvas, Aff3.apply]
  have htx : truncate ((⟨2, 0, -1 / 2, 0, 1, 0⟩ : Aff3).apply
      (((1 : Nat) : ℚ), ((0 : Nat) : ℚ))).1 = 1 := by
    norm_num [Aff3.apply, truncate]
  have hty : truncate ((⟨2, 0, -1 / 2, 0, 1, 0⟩ : Aff3).apply
      (((1 : Nat) : ℚ), ((0 : Nat) : ℚ))).2 = 0 := by
    norm_num [Aff3.apply, truncate]
  have hpix : Grid.pixel [[R, G]] ((0 : Nat) : Int) ((1 : Nat) : Int) = some G := by decide
  have hset : Grid.setPixel [[z, z]] 0 1 G = some [[z, G]] := by decide
  refine ⟨by norm_num [Aff3.apply, truncate], by norm_num [Aff3.apply, truncate],
    getColorMatrix_WideImage, ?_⟩
  rw [Aff3_WideImage, hm, remap_one_row, remapStep_skip _ _ _ _ _ _ _ hout, Option.some_bind,
    remapStep_write _ _ _ _ _ _ _ hin, hpix, Option.some_bind, htx, hty, hset]

/-- C16, evaluated: for the chain `[ReflectHoriz]` on the 2 x 1 image `[R, G]`
`Transformer.Aff3` returns `[[z, G]]`: source pixel `(0, 0)` maps to `x' = 2`,
outside the canvas, and is dropped, and pixel `(1, 0)` stays in column 1.
`ReflectHoriz.MTransform` of the pixel grid returns the mirrored `[[G, R]]`. -/
theorem reflectHoriz_remap_ne_mirror :
    Transformer.composeOps (NewTransformer.Add .ReflectHoriz) WideImage =
        ⟨-1, 0, 2, 0, 1, 0⟩ ∧
      Transformer.Aff3 (NewTransformer.Add .ReflectHoriz) WideImage = some [[z, G]] ∧
      ReflectHoriz.MTransform [[R, G]] = some [[G, R]] ∧
      Transformer.Aff3 (NewTransformer.Add .ReflectHoriz) WideImage ≠
        ReflectHoriz.MTransform [[R, G]] := by
  have hm : Transformer.composeOps (NewTransformer.Add .ReflectHoriz) WideImage =
      ⟨-1, 0, 2, 0, 1, 0⟩ := by
    simp [Transformer.composeOps, NewTransformer, Transformer.Add, composeStep, Aff3.identity,
      Affline.Aff3, ReflectHoriz.Aff3, Image.Bounds, Rectangle.Size, WideImage]
  have hout : ¬ inCanvas ⟨-1, 0, 2, 0, 1, 0⟩ ((2 : Nat) : Int) ((1 : Nat) : Int) 0 0 := by
    norm_num [inCanvas, Aff3.apply]
  have hin : inCanvas ⟨-1, 0, 2, 0, 1, 0⟩ ((2 : Nat) : Int) ((1 : Nat) : Int) 1 0 := by
    norm_num [inCanvas, Aff3.apply]
  have htx : truncate ((⟨-1, 0, 2, 0, 1, 0⟩ : Aff3).apply
      (((1 : Nat) : ℚ), ((0 : Nat) : ℚ))).1 = 1 := by
    norm_num [Aff3.apply, truncate]
  have hty : truncate ((⟨-1, 0, 2, 0, 1, 0⟩ : Aff3).apply
      (((1 : Nat) : ℚ), ((0 : Nat) : ℚ))).2 = 0 := by
    norm_num [Aff3.apply, truncate]
  have hpix : Grid.pixel [[R, G]] ((0 : Nat) : Int) ((1 : Nat) : Int) = some G := by decide
  have hset : Grid.setPixel [[z, z]] 0 1 G = some [[z, G]] := by decide
  have haff : Transformer.Aff3 (NewTransformer.Add .ReflectHoriz) WideImage = some [[z, G]] := by
    rw [Aff3_WideImage, hm, remap_one_row, remapStep_skip _ _ _ _ _ _ _ hout, Option.some_bind,
      remapStep_write _ _ _ _ _ _ _ hin, hpix, Option.some_bind, htx, hty, hset]
  have hmt : ReflectHoriz.MTransform [[R, G]] = some [[G, R]] := by decide
  refine ⟨hm, haff, hmt, ?_⟩
  rw [haff, hmt]
  decide

/-- A write changes no cell other than the one written. -/
theorem Grid.pixel_set_ne (g : Grid) (r k : Nat) (row : List RGBA) (c : RGBA)
    (hrow : g[r]? = some row) (r' k' : Int) (hne : ¬ (r' = (r : Int) ∧ k' = (k : Int))) :
    Grid.pixel (g.set r (row.set k c)) r' k' = g.pixel r' k' := by
  unfold Grid.pixel
  by_cases h : 0 ≤ r' ∧ 0 ≤ k'
  · rw [if_pos h, if_pos h]
    by_cases hr : r = r'.toNat
    · have hk : k ≠ k'.toNat := by
        intro hk
        apply hne
        constructor <;> omega
      have hlt : r < g.length := (List.getElem?_eq_some.mp hrow).1
      rw [← hr, List.getElem?_set_self hlt, hrow]
      simp only [Option.some_bind]
      rw [List.getElem?_set_ne hk]
    · rw [List.getElem?_set_ne hr]
  · rw [if_neg h, if_neg h]

/-- A write is read back at the cell written. -/
theorem Grid.pixel_set_self (g : Grid) (r k : Nat) (row : List RGBA) (c : RGBA)
    (hrow : g[r]? = some row) (hk : k < row.length) :
    Grid.pixel (g.set r (row.set k c)) (r : Int) (k : Int) = some c := by
  have hlt : r < g.length := (List.getElem?_eq_some.mp hrow).1
  simp [Grid.pixel, List.getElem?_set_self hlt, List.getElem?_set_self hk]

/-- A write inside a rectangular grid leaves it rectangular. -/
theorem Grid.isRect_set (g : Grid) (H W r k : Nat) (row : List RGBA) (c : RGBA)
    (hrect : g.IsRect H W) (hrow : g[r]? = some row) :
    Grid.IsRect (g.set r (row.set k c)) H W := by
  obtain ⟨hl, hr⟩ := hrect
  obtain ⟨hlt, hget⟩ := List.getElem?_eq_some.mp hrow
  refine ⟨by simpa using hl, ?_⟩
  intro row' hmem
  rcases List.mem_or_eq_of_mem_set hmem with h1 | h1
  · exact hr row' h1
  · rw [h1, List.length_set, ← hget]
    exact hr _ (List.getElem_mem hlt)

/-- A product and sums of multiples of `2^-16` in the range of `Aff3.Dyadic16`
with coordinates below `2^16`: each product, the partial sum and the total are
held exactly by a `float64`. -/
theorem dyadic_coordinate_exact (a b c : Int) (x y : Nat) (ha : |a| ≤ 2 ^ 32)
    (hb : |b| ≤ 2 ^ 32) (hc : |c| ≤ 2 ^ 32) (hx : x < 2 ^ 16) (hy : y < 2 ^ 16) :
    ExactInFloat64 ((a : ℚ) / 2 ^ 16 * (x : ℚ)) ∧
      ExactInFloat64 ((b : ℚ) / 2 ^ 16 * (y : ℚ)) ∧
      ExactInFloat64 ((a : ℚ) / 2 ^ 16 * (x : ℚ) + (b : ℚ) / 2 ^ 16 * (y : ℚ)) ∧
      ExactInFloat64 ((a : ℚ) / 2 ^ 16 * (x : ℚ) + (b : ℚ) / 2 ^ 16 * (y : ℚ) +
        (c : ℚ) / 2 ^ 16 * 1) := by
  have hx' : |(x : Int)| ≤ 2 ^ 16 := by
    rw [abs_of_nonneg (Int.natCast_nonneg x)]
    exact_mod_cast Nat.le_of_lt hx
  have hy' : |(y : Int)| ≤ 2 ^ 16 := by
    rw [abs_of_nonneg (Int.natCast_nonneg y)]
    exact_mod_cast Nat.le_of_lt hy
  have hax : |a * (x : Int)| ≤ 2 ^ 48 := by
    rw [abs_mul]
    calc |a| * |(x : Int)| ≤ 2 ^ 32 * 2 ^ 16 :=
          mul_le_mul ha hx' (abs_nonneg _) (by norm_num)
      _ = 2 ^ 48 := by norm_num
  have hby : |b * (y : Int)| ≤ 2 ^ 48 := by
    rw [abs_mul]
    calc |b| * |(y : Int)| ≤ 2 ^ 32 * 2 ^ 16 :=
          mul_le_mul hb hy' (abs_nonneg _) (by norm_num)
      _ = 2 ^ 48 := by norm_num
  have hs : |a * (x : Int) + b * (y : Int)| ≤ 2 ^ 49 :=
    le_trans (abs_add _ _) (by linarith)
  have ht : |a * (x : Int) + b * (y : Int) + c| ≤ 2 ^ 50 :=
    le_trans (abs_add _ _) (by linarith)
  refine ⟨⟨a * (x : Int), 16, by norm_num, lt_of_le_of_lt hax (by norm_num), ?_⟩,
    ⟨b * (y : Int), 16, by norm_num, lt_of_le_of_lt hby (by norm_num), ?_⟩,
    ⟨a * (x : Int) + b * (y : Int), 16, by norm_num, lt_of_le_of_lt hs (by norm_num), ?_⟩,
    ⟨a * (x : Int) + b * (y : Int) + c, 16, by norm_num, lt_of_le_of_lt ht (by norm_num), ?_⟩⟩
  · push_cast
    ring
  · push_cast
    ring
  · push_cast
    ring
  · push_cast
    ring

/-- Both mapped coordinates of a source pixel are held exactly when the matrix
is in the range of `Aff3.Dyadic16` and the pixel coordinates are below `2^16`. -/
theorem Aff3.apply_exact (m : Aff3) (hm : m.Dyadic16) (x y : Nat) (hx : x < 2 ^ 16)
    (hy : y < 2 ^ 16) :
    Zomgclouds.ExactInFloat64 (m.apply ((x : ℚ), (y : ℚ))).1 ∧
      Zomgclouds.ExactInFloat64 (m.apply ((x : ℚ), (y : ℚ))).2 := by
  obtain ⟨⟨n0, b0, e0⟩, ⟨n1, b1, e1⟩, ⟨n2, b2, e2⟩, ⟨n3, b3, e3⟩, ⟨n4, b4, e4⟩,
    ⟨n5, b5, e5⟩⟩ := hm
  simp only [Aff3.apply, e0, e1, e2, e3, e4, e5]
  exact ⟨(dyadic_coordinate_exact n0 n1 n2 x y b0 b1 b2 hx hy).2.2.2,
    (dyadic_coordinate_exact n3 n4 n5 x y b3 b4 b5 hx hy).2.2.2⟩

/-- C12, amended: for every matrix `M` whose coefficients are multiples of
`2^-16` of absolute value at most `2^16` (non-integral ones included), every
canvas of width and height at most `2^16` and every source pixel `(x, y)`, the
coordinates `tx`, `ty` of `M(x, y)` are computed exactly in `float64`, and the
inner iteration of the forward remap, on a destination whose rows `0..top` are
allocated, copies the pixel exactly when `M(x, y)` itself, before truncation,
satisfies `0 ≤ tx < W` and `0 ≤ ty < H`: then the truncated coordinate lies in
the canvas and, when its row is one of the allocated rows, the pixel is written
there and no other cell changes; otherwise the destination is left as it is.
While source row `y` is scanned, `top = y`. -/
theorem remapStep_copies_iff_inCanvas (m : Aff3) (pixels : Grid) (H W y x top : Nat)
    (result : Grid) (c : RGBA) (hm : m.Dyadic16) (hW : W ≤ 2 ^ 16) (hH : H ≤ 2 ^ 16)
    (hx : x < W) (hy : y < H) (hpix : pixels.pixel (y : Int) (x : Int) = some c)
    (hrows : ∀ r : Nat, r ≤ top → ∃ row, result[r]? = some row ∧ row.length = W) :
    ExactInFloat64 (m.apply ((x : ℚ), (y : ℚ))).1 ∧
    ExactInFloat64 (m.apply ((x : ℚ), (y : ℚ))).2 ∧
    (inCanvas m (W : Int) (H : Int) x y →
      0 ≤ truncate (m.apply ((x : ℚ), (y : ℚ))).1 ∧
      truncate (m.apply ((x : ℚ), (y : ℚ))).1 < (W : Int) ∧
      0 ≤ truncate (m.apply ((x : ℚ), (y : ℚ))).2 ∧
      truncate (m.apply ((x : ℚ), (y : ℚ))).2 < (H : Int) ∧
      (truncate (m.apply ((x : ℚ), (y : ℚ))).2 ≤ (top : Int) →
        ∃ result' : Grid, remapStep m pixels (W : Int) (H : Int) y result x = some result' ∧
          result'.pixel (truncate (m.apply ((x : ℚ), (y : ℚ))).2)
            (truncate (m.apply ((x : ℚ), (y : ℚ))).1) = some c ∧
          (∀ r k : Int, ¬ (r = truncate (m.apply ((x : ℚ), (y : ℚ))).2 ∧
              k = truncate (m.apply ((x : ℚ), (y : ℚ))).1) →
            result'.pixel r k = result.pixel r k) ∧
          ∀ r : Nat, r ≤ top → ∃ row, result'[r]? = some row ∧ row.length = W)) ∧
    (¬ inCanvas m (W : Int) (H : Int) x y →
      remapStep m pixels (W : Int) (H : Int) y result x = some result) := by
  have hexact := Aff3.apply_exact m hm x y (by omega) (by omega)
  refine ⟨hexact.1, hexact.2, fun hin => ?_,
    fun hout => remapStep_skip m pixels _ _ y x result hout⟩
  have hx0 : 0 ≤ truncate (m.apply ((x : ℚ), (y : ℚ))).1 := by
    unfold truncate
    rw [if_pos hin.1]
    exact Int.floor_nonneg.mpr hin.1
  have hy0 : 0 ≤ truncate (m.apply ((x : ℚ), (y : ℚ))).2 := by
    unfold truncate
    rw [if_pos hin.2.2.1]
    exact Int.floor_nonneg.mpr hin.2.2.1
  have hx1 := truncate_lt _ (W : Int) hin.1 hin.2.1
  have hy1 := truncate_lt _ (H : Int) hin.2.2.1 hin.2.2.2
  refine ⟨hx0, hx1, hy0, hy1, fun htop => ?_⟩
  obtain ⟨k, hk⟩ := Int.eq_ofNat_of_zero_le hx0
  obtain ⟨r, hr⟩ := Int.eq_ofNat_of_zero_le hy0
  rw [hk] at hx1
  rw [hr] at htop
  have hrt : r ≤ top := by exact_mod_cast htop
  obtain ⟨row, hrow, hrowlen⟩ := hrows r hrt
  have hkl : k < row.length := by
    rw [hrowlen]
    exact_mod_cast hx1
  have hrl : r < result.length := (List.getElem?_eq_some.mp hrow).1
  refine ⟨result.set r (row.set k c), ?_, ?_, ?_, ?_⟩
  · rw [remapStep_write m pixels _ _ y x result hin, hpix, Option.some_bind, hk, hr]
    exact Grid.setPixel_row result r k c row hrow hkl
  · rw [hk, hr]
    exact Grid.pixel_set_self result r k row c hrow hkl
  · intro r' k' hne
    rw [hk, hr] at hne
    exact Grid.pixel_set_ne result r k row c hrow r' k' hne
  · intro r' hr'
    by_cases e : r = r'
    · subst e
      exact ⟨row.set k c, List.getElem?_set_self hrl, by rw [List.length_set, hrowlen]⟩
    · obtain ⟨row', h1, h2⟩ := hrows r' hr'
      exact ⟨row', by rw [List.getElem?_set_ne e]; exact h1, h2⟩

/-- Witness of `remapStep_copies_iff_inCanvas`: the matrix
`{2, 0, -1/2, 0, 1, 0}`, the pixel grid `[[R, G]]`, source pixel `(1, 0)` (which
maps to `(3/2, 0)`) and the destination `[[z, z]]`, whose row 0 is allocated:
the step returns `[[z, G]]`. -/
theorem remapStep_copies_iff_inCanvas_witness :
    inCanvas ⟨2, 0, -1 / 2, 0, 1, 0⟩ ((2 : Nat) : Int) ((1 : Nat) : Int) 1 0 ∧
    truncate ((⟨2, 0, -1 / 2, 0, 1, 0⟩ : Aff3).apply (((1 : Nat) : ℚ), ((0 : Nat) : ℚ))).2 ≤
      ((0 : Nat) : Int) ∧
    ExactInFloat64 ((⟨2, 0, -1 / 2, 0, 1, 0⟩ : Aff3).apply (((1 : Nat) : ℚ), ((0 : Nat) : ℚ))).1 ∧
    ∃ result' : Grid,
      remapStep ⟨2, 0, -1 / 2, 0, 1, 0⟩ [[R, G]] ((2 : Nat) : Int) ((1 : Nat) : Int) 0
        [[z, z]] 1 = some result' ∧
      result'.pixel
        (truncate ((⟨2, 0, -1 / 2, 0, 1, 0⟩ : Aff3).apply (((1 : Nat) : ℚ), ((0 : Nat) : ℚ))).2)
        (truncate ((⟨2, 0, -1 / 2, 0, 1, 0⟩ : Aff3).apply (((1 : Nat) : ℚ), ((0 : Nat) : ℚ))).1) =
          some G := by
  have hin : inCanvas ⟨2, 0, -1 / 2, 0, 1, 0⟩ ((2 : Nat) : Int) ((1 : Nat) : Int) 1 0 := by
    norm_num [inCanvas, Aff3.apply]
  have htop : truncate ((⟨2, 0, -1 / 2, 0, 1, 0⟩ : Aff3).apply
      (((1 : Nat) : ℚ), ((0 : Nat) : ℚ))).2 ≤ ((0 : Nat) : Int) := by
    norm_num [Aff3.apply, truncate]
  have h := remapStep_copies_iff_inCanvas ⟨2, 0, -1 / 2, 0, 1, 0⟩ [[R, G]] 1 2 0 1 0
    [[z, z]] G
    ⟨⟨131072, by norm_num, by norm_num⟩, ⟨0, by norm_num, by norm_num⟩,
      ⟨-32768, by norm_num, by norm_num⟩, ⟨0, by norm_num, by norm_num⟩,
      ⟨65536, by norm_num, by norm_num⟩, ⟨0, by norm_num, by norm_num⟩⟩
    (by norm_num) (by norm_num) (by norm_num) (by norm_num) (by decide)
    (by
      intro r hr
      have hr0 : r = 0 := Nat.le_zero.mp hr
      subst hr0
      exact ⟨[z, z], rfl, rfl⟩)
  obtain ⟨result', h1, h2, _⟩ := (h.2.2.1 hin).2.2.2.2 htop
  exact ⟨hin, htop, h.1, result', h1, h2⟩

/-! ## The pixel grid of an image -/

/-- Inside the bounds `At` returns the stored colour. -/
theorem Image.At_inside (img : Image) (x y : Int)
    (hx0 : img.Bounds.Min.X ≤ x) (hx1 : x < img.Bounds.Max.X)
    (hy0 : img.Bounds.Min.Y ≤ y) (hy1 : y < img.Bounds.Max.Y) :
    img.At x y = img.Pix x y := by
  have hin : Point.In ⟨x, y⟩ img.Rect = true := by
    simp only [Image.Bounds] at hx0 hx1 hy0 hy1
    simp [Point.In, hx0, hx1, hy0, hy1]
  simp [Image.At, hin]

/-- C21: for every `image.RGBA` whose bounds start at (0,0), `getColorMatrix`
returns a grid of exactly `height` rows of `width` colours whose entry `[y][x]`
is the stored 8-bit `(R, G, B, A)` of pixel `(x, y)`; truncating the 16-bit
channel `v * 257` that `RGBA()` returns to `uint8` recovers `v` for every `v`
in `0..255`. -/
theorem getColorMatrix_stored_colours (img : Image) (hmin : img.Bounds.Min = ⟨0, 0⟩) :
    (∃ g : Grid, getColorMatrix img = some g ∧
      (g.length : Int) = img.Bounds.Max.Y - img.Bounds.Min.Y ∧
      (∀ row ∈ g, (row.length : Int) = img.Bounds.Max.X - img.Bounds.Min.X) ∧
      ∀ x y : Int, img.Bounds.Min.X ≤ x → x < img.Bounds.Max.X →
        img.Bounds.Min.Y ≤ y → y < img.Bounds.Max.Y →
        g.pixel y x = some (img.Pix x y)) ∧
    (∀ v : Nat, v < 256 → (uint8 (v * 257)).val = v) ∧
    (∀ c : RGBA,
      (⟨uint8 c.RGBA.1, uint8 c.RGBA.2.1, uint8 c.RGBA.2.2.1, uint8 c.RGBA.2.2.2⟩ : RGBA) = c) := by
  refine ⟨?_, ?_, uint8_RGBA⟩
  · have hwf : img.Bounds.Min.X ≤ img.Bounds.Max.X ∧ img.Bounds.Min.Y ≤ img.Bounds.Max.Y :=
      img.wf
    have hX : img.Bounds.Min.X = 0 := by rw [hmin]
    have hY : img.Bounds.Min.Y = 0 := by rw [hmin]
    have hwf0 := hwf
    rw [hX, hY] at hwf0
    obtain ⟨W, hW⟩ := Int.eq_ofNat_of_zero_le hwf0.1
    obtain ⟨H, hH⟩ := Int.eq_ofNat_of_zero_le hwf0.2
    have hg := getColorMatrix_origin img hmin
    rw [hW, hH, Int.toNat_ofNat, Int.toNat_ofNat] at hg
    have hrect := Grid.tabulate_isRect H W (fun y x => img.At (x : Int) (y : Int))
    refine ⟨_, hg, ?_, ?_, ?_⟩
    · rw [hrect.1, hH, hY, sub_zero]
    · intro row hrow
      rw [hrect.2 row hrow, hW, hX, sub_zero]
    · intro x y hx0 hx1 hy0 hy1
      have hat := Image.At_inside img x y hx0 hx1 hy0 hy1
      rw [hX] at hx0
      rw [hY] at hy0
      rw [hW] at hx1
      rw [hH] at hy1
      obtain ⟨x, rfl⟩ := Int.eq_ofNat_of_zero_le hx0
      obtain ⟨y, rfl⟩ := Int.eq_ofNat_of_zero_le hy0
      rw [Grid.pixel_tabulate H W (fun y x => img.At (x : Int) (y : Int)) y x
        (by exact_mod_cast hy1) (by exact_mod_cast hx1)]
      exact congrArg some hat
  · intro v hv
    simp only [uint8]
    omega

/-- Witness of `getColorMatrix_stored_colours` on the 10 x 5 fixture. -/
theorem getColorMatrix_stored_colours_witness :
    BasicImage.Bounds.Min = ⟨0, 0⟩ ∧
    (∃ g : Grid, getColorMatrix BasicImage = some g ∧
      (g.length : Int) = BasicImage.Bounds.Max.Y - BasicImage.Bounds.Min.Y ∧
      (∀ row ∈ g, (row.length : Int) = BasicImage.Bounds.Max.X - BasicImage.Bounds.Min.X) ∧
      ∀ x y : Int, BasicImage.Bounds.Min.X ≤ x → x < BasicImage.Bounds.Max.X →
        BasicImage.Bounds.Min.Y ≤ y → y < BasicImage.Bounds.Max.Y →
        g.pixel y x = some (BasicImage.Pix x y)) :=
  ⟨rfl, (getColorMatrix_stored_colours BasicImage rfl).1⟩

end Zomgclouds
